import Mathlib

/-!
Verification development for the chunking / dispatch / parsing / reconciliation
core of `AUNTY/src/openai_service.py` (class `OpenAIService`).

The Python values manipulated by that module (results of `json.loads`, room
dictionaries, partial documents) are modelled by the inductive type `JVal`
below; Python dictionaries are insertion-ordered association lists with unique
keys, mutation of a dict entry is functional replacement in place, and the
relevant string/dict primitives of Python (`str`, `.strip()`, `.lower()`,
`.get`, `in`, truthiness, `==`) are given explicit total models.  Each
definition carries a comment naming the Python function and lines it embeds.

Deviations of the model, by design: Python raises an exception where the code
ducks-types a non-iterable (e.g. `for item in 3`); the model returns the
neutral result on those crash paths, which no claim exercises.  Unicode-only
behaviour of `.strip()`/`.lower()` is modelled on ASCII, which is all the
claims use.
-/

set_option linter.unusedVariables false

/-- JSON-like Python value: `None`, `bool`, numbers (modelled exactly as
scaled decimals: `num m e` is the number `m / 10^e`, so every JSON literal
is represented without rounding), strings, lists, and insertion-ordered
dicts. -/
inductive JVal where
  | null : JVal
  | bool : Bool → JVal
  | num : Int → Nat → JVal
  | str : String → JVal
  | arr : List JVal → JVal
  | obj : List (String × JVal) → JVal
deriving Inhabited

/-- Numeric equality of two scaled decimals (`m₁/10^a = m₂/10^b` iff
`m₁·10^b = m₂·10^a`); Python compares numbers by value, so `1 == 1.0`. -/
def decEqB (m1 : Int) (e1 : Nat) (m2 : Int) (e2 : Nat) : Bool :=
  m1 * (10 : Int) ^ e2 == m2 * (10 : Int) ^ e1

/-- Exact addition of scaled decimals (models Python `+=` on the
reconciler's counters). -/
def decAdd (a b : Int × Nat) : Int × Nat :=
  (a.1 * (10 : Int) ^ b.2 + b.1 * (10 : Int) ^ a.2, a.2 + b.2)

mutual

/-- Structural boolean equality on `JVal` (order-sensitive; Python dict
equality is obtained by comparing key-sorted normal forms, see `pyEqB`). -/
def jvalBEq : JVal → JVal → Bool
  | .null, .null => true
  | .bool a, .bool b => a == b
  | .num a ea, .num b eb => decEqB a ea b eb
  | .str a, .str b => a == b
  | .arr a, .arr b => jvalListBEq a b
  | .obj a, .obj b => jvalKvsBEq a b
  | _, _ => false

/-- Pointwise `jvalBEq` on lists. -/
def jvalListBEq : List JVal → List JVal → Bool
  | [], [] => true
  | x :: xs, y :: ys => jvalBEq x y && jvalListBEq xs ys
  | _, _ => false

/-- Pointwise `jvalBEq` on key/value lists. -/
def jvalKvsBEq : List (String × JVal) → List (String × JVal) → Bool
  | [], [] => true
  | (k, v) :: xs, (l, w) :: ys => k == l && jvalBEq v w && jvalKvsBEq xs ys
  | _, _ => false

end

mutual

theorem jvalBEq_refl : ∀ x : JVal, jvalBEq x x = true
  | .null => rfl
  | .bool b => by simp [jvalBEq]
  | .num m e => by simp [jvalBEq, decEqB]
  | .str s => by simp [jvalBEq]
  | .arr xs => by simp [jvalBEq, jvalListBEq_refl xs]
  | .obj kvs => by simp [jvalBEq, jvalKvsBEq_refl kvs]

theorem jvalListBEq_refl : ∀ xs : List JVal, jvalListBEq xs xs = true
  | [] => rfl
  | x :: xs => by simp [jvalListBEq, jvalBEq_refl x, jvalListBEq_refl xs]

theorem jvalKvsBEq_refl : ∀ kvs : List (String × JVal), jvalKvsBEq kvs kvs = true
  | [] => rfl
  | (k, v) :: kvs => by simp [jvalKvsBEq, jvalBEq_refl v, jvalKvsBEq_refl kvs]

end

/-- Kernel-computable lexicographic comparison of character lists. -/
def charListLeB : List Char → List Char → Bool
  | [], _ => true
  | _ :: _, [] => false
  | a :: as, b :: bs =>
    if a.toNat < b.toNat then true
    else if b.toNat < a.toNat then false
    else charListLeB as bs

/-- Kernel-computable string comparison used to canonicalise dict key
order. -/
def strLeB (a b : String) : Bool := charListLeB a.data b.data

/-- Insert a key into a key-sorted association list (used to normalise dict
key order, mirroring the fact that Python dict equality ignores it). -/
def sortedInsertKv (p : String × JVal) : List (String × JVal) → List (String × JVal)
  | [] => [p]
  | q :: qs => if strLeB p.1 q.1 then p :: q :: qs else q :: sortedInsertKv p qs

/-- Insertion sort of an association list by key. -/
def sortKvs : List (String × JVal) → List (String × JVal)
  | [] => []
  | p :: ps => sortedInsertKv p (sortKvs ps)

mutual

/-- Key-order normal form of a value: every embedded dict gets its keys
sorted.  Two Python values compare `==` iff their normal forms are
structurally equal (dict keys are unique, so sorting is a complete
normaliser). -/
def normJ : JVal → JVal
  | .null => .null
  | .bool b => .bool b
  | .num m e => .num m e
  | .str s => .str s
  | .arr xs => .arr (normJList xs)
  | .obj kvs => .obj (sortKvs (normJKvs kvs))

/-- Elementwise `normJ`. -/
def normJList : List JVal → List JVal
  | [] => []
  | x :: xs => normJ x :: normJList xs

/-- Valuewise `normJ` on key/value lists. -/
def normJKvs : List (String × JVal) → List (String × JVal)
  | [] => []
  | (k, v) :: kvs => (k, normJ v) :: normJKvs kvs

end

/-- Model of Python `==` between JSON-like values (dict comparison ignores
key order). -/
def pyEqB (a b : JVal) : Bool := jvalBEq (normJ a) (normJ b)

theorem pyEqB_refl (a : JVal) : pyEqB a a = true := jvalBEq_refl _

/-- Model of Python list membership `x in l` (uses `==`). -/
def pyMemB (x : JVal) (l : List JVal) : Bool := l.any (fun y => pyEqB y x)

theorem pyMemB_of_mem {x : JVal} {l : List JVal} (h : x ∈ l) : pyMemB x l = true := by
  simp only [pyMemB, List.any_eq_true]
  exact ⟨x, h, pyEqB_refl x⟩

/-! ### Python string primitives -/

/-- Characters stripped by Python `str.strip()` / matched by regex `\s`
(ASCII fragment). -/
def isPyWs (c : Char) : Bool :=
  c = ' ' || c = '\t' || c = '\n' || c = '\r' || c = '\x0b' || c = '\x0c'

/-- Model of Python `str.lstrip()`. -/
def pyLStrip (s : String) : String := ⟨s.data.dropWhile isPyWs⟩

/-- Model of Python `str.rstrip()`. -/
def pyRStrip (s : String) : String := ⟨(s.data.reverse.dropWhile isPyWs).reverse⟩

/-- Model of Python `str.strip()`. -/
def pyStrip (s : String) : String := pyRStrip (pyLStrip s)

/-- Model of Python `str.rstrip(',')`: drop every trailing comma. -/
def pyRStripComma (s : String) : String :=
  ⟨(s.data.reverse.dropWhile (fun c => c = ',')).reverse⟩

/-- Model of Python `str.lower()` (ASCII fragment). -/
def pyLower (s : String) : String := ⟨s.data.map Char.toLower⟩

/-- Composite `str(x).strip().lower()` normalisation used throughout the
merge code for identity keys. -/
def normQStr (s : String) : String := pyLower (pyStrip s)

/-- List-level substring test: does `needle` occur inside `hay`?  Models the
Python `in` operator on strings (`"opens into" in f_type`). -/
def listContainsSub (hay needle : List Char) : Bool :=
  (List.range (hay.length + 1)).any (fun i => needle.isPrefixOf (hay.drop i))

/-- String-level wrapper of `listContainsSub`. -/
def strContainsB (hay needle : String) : Bool := listContainsSub hay.data needle.data

/-- Does `s` end with `suf`?  Models Python `str.endswith`. -/
def endsWithB (s suf : String) : Bool := suf.data.isPrefixOf (s.data.reverse.take suf.data.length |>.reverse) && decide (suf.data.length ≤ s.data.length)

/-- Does `s` start with `pre`?  Models Python `str.startswith`. -/
def startsWithB (s pre : String) : Bool := pre.data.isPrefixOf s.data

/-- Number of occurrences of character `c` in `s`; models Python
`str.count(c)` for a single-character argument. -/
def countChar (s : String) (c : Char) : Nat := s.data.countP (fun d => d = c)

/-- First index at which `needle` occurs in `cs` at or after position `i`,
scanning left to right. -/
def listFindFrom : List Char → List Char → Nat → Option Nat
  | [], needle, i => if needle.isEmpty then some i else none
  | c :: cs, needle, i =>
    if needle.isPrefixOf (c :: cs) then some i else listFindFrom cs needle (i + 1)

/-- Model of Python `str.find(sub)` (as an `Option`; Python returns -1 for
no match). -/
def strFindSub (s sub : String) : Option Nat := listFindFrom s.data sub.data 0

/-- Model of Python `str.find(sub, start)`. -/
def strFindSubFrom (s sub : String) (start : Nat) : Option Nat :=
  (listFindFrom (s.data.drop start) sub.data 0).map (fun i => i + start)

/-- Model of Python `str.rfind(sub)` for a single-character `sub`: highest
index holding `c`. -/
def strRFindChar (s : String) (c : Char) : Option Nat :=
  (listFindFrom s.data.reverse [c] 0).map (fun i => s.data.length - 1 - i)

/-- Model of Python `str.find(c)` for a single character. -/
def strFindChar (s : String) (c : Char) : Option Nat := listFindFrom s.data [c] 0

/-- Model of Python `str.rfind(c, start, stop)`: highest index `i` with
`start ≤ i < stop` and `s[i] = c` (as an `Option`). -/
def strRFindCharRange (s : String) (c : Char) (start stop : Nat) : Option Nat :=
  let window := (s.data.take stop).drop start
  (listFindFrom window.reverse [c] 0).map (fun i => start + (window.length - 1 - i))

/-- Clamp one Python slice endpoint (negative counts from the end). -/
def pySliceIdx (n : Nat) (i : Int) : Nat :=
  if i < 0 then (Int.toNat (Int.ofNat n + i)) else min i.toNat n

/-- Model of the Python slice `s[a:b]` for arbitrary integer endpoints. -/
def pySlice (s : String) (a b : Int) : String :=
  let lo := pySliceIdx s.data.length a
  let hi := pySliceIdx s.data.length b
  ⟨(s.data.take hi).drop lo⟩

/-- Take the first `n` characters (the Python slice `s[:n]`). -/
def strTake (s : String) (n : Nat) : String := ⟨s.data.take n⟩

/-- Drop the first `n` characters (the Python slice `s[n:]`). -/
def strDrop (s : String) (n : Nat) : String := ⟨s.data.drop n⟩

/-- Replicate a character `n` times — Python `c * n` on strings. -/
def repChar (c : Char) (n : Nat) : String := ⟨List.replicate n c⟩

/-! ### Python dict primitives (insertion-ordered association lists) -/

/-- First value bound to `k`, if any (Python dicts have unique keys, so this
is the value of `k`). -/
def kvLookup (k : String) : List (String × JVal) → Option JVal
  | [] => none
  | (k2, v) :: rest => if k2 = k then some v else kvLookup k rest

/-- Model of Python dict assignment `d[k] = v`: replace the binding in place
when `k` is present, append it otherwise. -/
def kvSet (k : String) (v : JVal) : List (String × JVal) → List (String × JVal)
  | [] => [(k, v)]
  | (k2, w) :: rest => if k2 = k then (k2, v) :: rest else (k2, w) :: kvSet k v rest

/-- Key-membership test, Python `k in d`. -/
def kvHas (k : String) (kvs : List (String × JVal)) : Bool :=
  kvs.any (fun p => p.1 = k)

/-- Model of Python `d.get(k)` on a dict value: `none` when `d` is not a
dict or the key is absent.  (On a non-dict Python would raise; no claim
exercises that path.) -/
def objFind (o : JVal) (k : String) : Option JVal :=
  match o with
  | .obj kvs => kvLookup k kvs
  | _ => none

/-- Model of Python `d.get(k, default)`: note that a key present with value
`None` returns `None`, not the default. -/
def objGetD (o : JVal) (k : String) (d : JVal) : JVal := (objFind o k).getD d

/-- Model of Python dict assignment on a `JVal` (identity on non-dicts). -/
def objSet (o : JVal) (k : String) (v : JVal) : JVal :=
  match o with
  | .obj kvs => .obj (kvSet k v kvs)
  | _ => o

/-- Key-membership on a `JVal`, Python `k in d`. -/
def objHas (o : JVal) (k : String) : Bool :=
  match o with
  | .obj kvs => kvHas k kvs
  | _ => false

/-- Model of `if k not in d: d[k] = v` (used when seeding a first-occurrence
room). -/
def objSetIfAbsent (o : JVal) (k : String) (v : JVal) : JVal :=
  if objHas o k then o else objSet o k v

/-- Truthiness of a Python value (`if x:`). -/
def pyTruthy : JVal → Bool
  | .null => false
  | .bool b => b
  | .num m e => m != 0
  | .str s => s ≠ ""
  | .arr l => !l.isEmpty
  | .obj kvs => !kvs.isEmpty

/-- Is the value Python `None` (`x is None`)? -/
def isNullJ : JVal → Bool
  | .null => true
  | _ => false

/-- View a value as a list; non-lists give `[]` (Python iterates or raises —
the claims only reach this on actual lists). -/
def toListD : JVal → List JVal
  | .arr l => l
  | _ => []

/-- View a value as a dict body; non-dicts give `[]`. -/
def toKvsD : JVal → List (String × JVal)
  | .obj kvs => kvs
  | _ => []

/-- Numeric view used when the reconciler sums `validation_summary`
counters (`+=`); Python booleans add as 0/1; other non-numbers would raise,
the model contributes 0 on that unused path. -/
def numOfD : JVal → Int × Nat
  | .num m e => (m, e)
  | .bool b => if b then (1, 0) else (0, 0)
  | _ => (0, 0)

/-- Decimal rendering of a scaled decimal, matching Python `str` on the
int/float values the claims touch (`str(3) = "3"`, `str(1.5) = "1.5"`). -/
def decRender (m : Int) (e : Nat) : String :=
  if e = 0 then toString m
  else
    let sign := if m < 0 then "-" else ""
    let ds := (toString m.natAbs).data
    if ds.length ≤ e then
      sign ++ "0." ++ ⟨List.replicate (e - ds.length) '0'⟩ ++ ⟨ds⟩
    else
      sign ++ ⟨ds.take (ds.length - e)⟩ ++ "." ++ ⟨ds.drop (ds.length - e)⟩

mutual

/-- Model of Python `repr` for JSON-like values (reached through `str` on
lists/dicts only, which no claim exercises on non-scalar data). -/
def pyRepr : JVal → String
  | .null => "None"
  | .bool b => if b then "True" else "False"
  | .num m e => decRender m e
  | .str s => "\x27" ++ s ++ "\x27"
  | .arr l => "[" ++ pyReprList l ++ "]"
  | .obj kvs => "\x7b" ++ pyReprKvs kvs ++ "\x7d"

/-- Comma-joined `repr` of list elements. -/
def pyReprList : List JVal → String
  | [] => ""
  | [x] => pyRepr x
  | x :: xs => pyRepr x ++ ", " ++ pyReprList xs

/-- Comma-joined `repr` of dict items. -/
def pyReprKvs : List (String × JVal) → String
  | [] => ""
  | [(k, v)] => "\x27" ++ k ++ "\x27: " ++ pyRepr v
  | (k, v) :: kvs => "\x27" ++ k ++ "\x27: " ++ pyRepr v ++ ", " ++ pyReprKvs kvs

end

/-- Model of Python `str(x)` for the values the service manipulates:
`str(None) = "None"`, booleans capitalise, numbers print plainly, strings
are themselves, containers fall back to `repr`. -/
def pyStr : JVal → String
  | .null => "None"
  | .bool b => if b then "True" else "False"
  | .num m e => decRender m e
  | .str s => s
  | .arr l => pyRepr (.arr l)
  | .obj kvs => pyRepr (.obj kvs)

/-! ### Room deduplication / merge
Embedding of `OpenAIService._merge_and_deduplicate_rooms`
(`openai_service.py` lines 298-532).  Python mutates the existing dict in
place; the model threads the updated value. -/

/-- Update the first element satisfying `p` with `f` (a `for ...: if p: ...;
break` loop over a Python list mutating one element). -/
def updateFirstB : List JVal → (JVal → Bool) → (JVal → JVal) → List JVal × Bool
  | [], _, _ => ([], false)
  | x :: xs, p, f =>
    if p x then (f x :: xs, true)
    else
      let r := updateFirstB xs p f
      (x :: r.1, r.2)

/-- Update the last element satisfying `p` (a loop over `reversed(list)`
with `break`). -/
def updateLastB (l : List JVal) (p : JVal → Bool) (f : JVal → JVal) : List JVal × Bool :=
  let r := updateFirstB l.reverse p f
  (r.1.reverse, r.2)

/-- Line-item identity signature, lines 344-346 / 350:
`(str(item.get("description", "")).strip().lower(), str(item.get("quantity", "")))`. -/
def itemSig (i : JVal) : String × String :=
  (normQStr (pyStr (objGetD i "description" (.str ""))),
   pyStr (objGetD i "quantity" (.str "")))

/-- Lines 344-353: append each incoming item whose signature is not already
present; the signature set starts from the existing items and grows with
each append. -/
def mergeLineItems (existing new : List JVal) : List JVal :=
  (new.foldl
    (fun (st : List JVal × List (String × String)) i =>
      if st.2.contains (itemSig i) then st
      else (st.1 ++ [i], st.2 ++ [itemSig i]))
    (existing, existing.map itemSig)).1

/-- Normalised sub-area name, line 362/365: `str(sa.get("name", "")).strip().lower()`. -/
def subName (sa : JVal) : String := normQStr (pyStr (objGetD sa "name" (.str "")))

/-- Lines 370-377: merge a matched sub-area's line items into the target:
`t_items = target.setdefault("line_items", [])`, then extend with the
incoming items not `in` (Python `==`) the target list. -/
def mergeSubItems (t sa : JVal) : JVal :=
  let t1 := objSetIfAbsent t "line_items" (.arr [])
  let tItems := toListD (objGetD t1 "line_items" .null)
  let sItemsV :=
    (let a := objGetD sa "line_items" (.arr [])
     if pyTruthy a then a else objGetD sa "items" (.arr []))
  let newT := tItems ++ (toListD sItemsV).filter (fun i => !(pyMemB i tItems))
  objSet t1 "line_items" (.arr newT)

/-- Lines 362-378: fold incoming sub-areas into the existing list; a fresh
non-empty name is appended, a known name deep-merges into the first target
with that name, an empty unknown name is dropped. -/
def mergeSubAreas (existing new : List JVal) : List JVal :=
  (new.foldl
    (fun (st : List JVal × List String) sa =>
      let n := subName sa
      if n ≠ "" && !(st.2.contains n) then (st.1 ++ [sa], st.2 ++ [n])
      else if st.2.contains n then
        ((updateFirstB st.1 (fun t => subName t == n) (fun t => mergeSubItems t sa)).1, st.2)
      else st)
    (existing, existing.map subName)).1

/-- Normalised feature type of a stored feature, line 412/421. -/
def featTypeOf (e : JVal) : String := normQStr (pyStr (objGetD e "feature_type" (.str "")))

/-- Normalised raw dimensions of a stored feature, line 412/422. -/
def featDimsOf (e : JVal) : String := normQStr (pyStr (objGetD e "dimensions_raw" (.str "")))

/-- Feature identity signature, lines 411-414. -/
def featSig (e : JVal) : String × String := (featTypeOf e, featDimsOf e)

/-- Lines 397-401: fill the chosen existing feature from an
`"opens into..."` fragment — adopt the raw incoming dimensions when the
fragment has usable ones, and set the action description to the stripped
incoming action if present, otherwise to the normalised fragment type. -/
def fragFill (f : JVal) (fDims fAction fType : String) (e : JVal) : JVal :=
  let e1 :=
    if fDims ≠ "" && fDims ≠ "none" then objSet e "dimensions_raw" (objGetD f "dimensions_raw" .null)
    else e
  if fAction ≠ "" || fType ≠ "" then
    objSet e1 "action_description" (.str (if fAction ≠ "" then fAction else fType))
  else e1

/-- Lines 423-429 (case: existing has the type but no dimensions). -/
def fillFromDims (f : JVal) (fAction : String) (e : JVal) : JVal :=
  let e1 := objSet e "dimensions_raw" (objGetD f "dimensions_raw" .null)
  if fAction ≠ "" then objSet e1 "action_description" (objGetD f "action_description" .null) else e1

/-- Lines 430-434 (case: existing has dimensions, incoming carries only an
action description). -/
def fillFromAction (f : JVal) (e : JVal) : JVal :=
  objSet e "action_description" (objGetD f "action_description" .null)

/-- One incoming architectural feature folded into the existing feature
list: lines 386-437 (room level) and identically lines 452-500 (sub-area
level). -/
def featStep (existing : List JVal) (f : JVal) : List JVal :=
  let fType := featTypeOf f
  let fDims := featDimsOf f
  let fAction := pyStrip (pyStr (objGetD f "action_description" (.str "")))
  if strContainsB fType "opens into" then
    (updateLastB existing
      (fun e =>
        let eDims := featDimsOf e
        eDims == "" || eDims == "none" || isNullJ (objGetD e "action_description" .null))
      (fragFill f fDims fAction fType)).1
  else
    let sigs := existing.map featSig
    if sigs.contains (fType, fDims) then existing
    else
      let pA := fun e =>
        featTypeOf e == fType && (featDimsOf e == "" || featDimsOf e == "none") && fDims ≠ ""
      let pB := fun e =>
        featTypeOf e == fType && featDimsOf e ≠ "" && (fDims == "" || fDims == "none") && fAction ≠ ""
      let r := updateFirstB existing (fun e => pA e || pB e)
        (fun e => if pA e then fillFromDims f fAction e else fillFromAction f e)
      if r.2 then r.1 else existing ++ [f]

/-- Fold a list of incoming features into an existing feature list. -/
def mergeFeatureList (existing new : List JVal) : List JVal := new.foldl featStep existing

/-- Step 6 of the duplicate-merge (lines 442-503): for each incoming sub-area
with a non-empty name, merge its architectural features into the first
existing sub-area carrying that name. -/
def subFeatStep (acc : List JVal) (sa : JVal) : List JVal :=
  let n := subName sa
  if n ≠ "" then
    (updateFirstB acc (fun t => subName t == n)
      (fun t =>
        let tArch := toListD (objGetD t "architectural_features" (.arr []))
        let nArchV := objGetD sa "architectural_features" (.arr [])
        if pyTruthy nArchV then
          objSet t "architectural_features" (.arr (mergeFeatureList tArch (toListD nArchV)))
        else t)).1
  else acc

/-- Stripped rule identifier of a validation entry, line 510/513. -/
def ruleIdOf (v : JVal) : String := pyStrip (pyStr (objGetD v "rule" (.str "")))

/-- Lines 505-526: fold incoming rule validations into the existing list.
Fresh non-empty rule ids are appended; an id already present may only be
upgraded from `PASSED` to `FLAGGED`, adopting the incoming details and
severity. -/
def mergeRuleValidations (existing new : List JVal) : List JVal :=
  (new.foldl
    (fun (st : List JVal × List String) val =>
      let rid := ruleIdOf val
      if rid ≠ "" && !(st.2.contains rid) then (st.1 ++ [val], st.2 ++ [rid])
      else if st.2.contains rid then
        ((updateFirstB st.1 (fun v => ruleIdOf v == rid)
          (fun ev =>
            if pyEqB (objGetD val "status" .null) (.str "FLAGGED") &&
               pyEqB (objGetD ev "status" .null) (.str "PASSED") then
              let ev1 := objSet ev "status" (.str "FLAGGED")
              let ev2 := objSet ev1 "details" (objGetD val "details" (objGetD ev "details" (.str "")))
              objSet ev2 "severity" (objGetD val "severity" (objGetD ev "severity" .null))
            else ev)).1, st.2)
      else st)
    (existing, existing.map ruleIdOf)).1

/-- Lines 336-338: fill only null/absent dimension fields from the incoming
value. -/
def fillNullKvs (ekvs nkvs : List (String × JVal)) : List (String × JVal) :=
  nkvs.foldl
    (fun acc p =>
      if isNullJ p.2 then acc
      else if isNullJ ((kvLookup p.1 acc).getD .null) then kvSet p.1 p.2 acc else acc)
    ekvs

/-- Lines 328-338: dimensions merge — adopt wholesale when the existing room
has none, fill gaps when both are dicts, otherwise leave untouched. -/
def mergeDimsStep (er room : JVal) : JVal :=
  let nd := objGetD room "dimensions" .null
  let ed := objGetD er "dimensions" .null
  if pyTruthy nd && !(pyTruthy ed) then objSet er "dimensions" nd
  else
    match nd, ed with
    | .obj nkvs, .obj ekvs => objSet er "dimensions" (.obj (fillNullKvs ekvs nkvs))
    | _, _ => er

/-- Lines 340-355: line-item merge into the existing room
(`room.get("line_items") or room.get("items") or []`). -/
def mergeItemsStep (er room : JVal) : JVal :=
  let newItemsV :=
    (let a := objGetD room "line_items" .null
     if pyTruthy a then a
     else
       (let b := objGetD room "items" .null
        if pyTruthy b then b else .arr []))
  let eItems := toListD (objGetD er "line_items" (.arr []))
  objSet er "line_items" (.arr (mergeLineItems eItems (toListD newItemsV)))

/-- Lines 381-439: room-level architectural-feature merge (guarded by the
truthiness of the incoming list). -/
def mergeRoomFeatsStep (er room : JVal) : JVal :=
  let nFv := objGetD room "architectural_features" (.arr [])
  if pyTruthy nFv then
    let eF := toListD (objGetD er "architectural_features" (.arr []))
    objSet er "architectural_features" (.arr (mergeFeatureList eF (toListD nFv)))
  else er

/-- Lines 505-526 wrapped as a room-to-room step
(`existing_room.setdefault("rule_validations", [])`). -/
def mergeValsStep (er room : JVal) : JVal :=
  let er1 := objSetIfAbsent er "rule_validations" (.arr [])
  let eV := toListD (objGetD er1 "rule_validations" .null)
  let nV := toListD (objGetD room "rule_validations" (.arr []))
  objSet er1 "rule_validations" (.arr (mergeRuleValidations eV nV))

/-- Whole duplicate-room merge body (lines 322-526), steps in source
order: dimensions, line items, sub-areas, room-level features, sub-area
features, rule validations. -/
def mergeDup (er room : JVal) : JVal :=
  let er1 := mergeDimsStep er room
  let er2 := mergeItemsStep er1 room
  let nSubs := toListD (objGetD room "sub_areas" (.arr []))
  let eSubs := toListD (objGetD er2 "sub_areas" (.arr []))
  let mergedSubs := mergeSubAreas eSubs nSubs
  let er3 := objSet er2 "sub_areas" (.arr mergedSubs)
  let er4 := mergeRoomFeatsStep er3 room
  let subs4 := toListD (objGetD er4 "sub_areas" (.arr []))
  let subs5 := nSubs.foldl subFeatStep subs4
  let er5 := objSet er4 "sub_areas" (.arr subs5)
  mergeValsStep er5 room

/-- Lines 313-321: seed a first occurrence — `room.copy()` plus empty
defaults for `line_items`, `sub_areas`, `rule_validations`. -/
def seedRoom (room : JVal) : JVal :=
  objSetIfAbsent
    (objSetIfAbsent (objSetIfAbsent room "line_items" (.arr [])) "sub_areas" (.arr []))
    "rule_validations" (.arr [])

/-- Line 305: normalised room name. -/
def roomNameNorm (room : JVal) : String := normQStr (pyStr (objGetD room "name" (.str "Unknown")))

/-- Line 306: normalised grouping (empty when the raw grouping is falsy). -/
def roomGroupNorm (room : JVal) : String :=
  if pyTruthy (objGetD room "grouping" .null) then normQStr (pyStr (objGetD room "grouping" (.str "")))
  else ""

/-- Line 311: `f"{room_name}::{grouping}" if grouping else room_name`. -/
def mkRoomKey (nm grp : String) : String := if grp ≠ "" then nm ++ "::" ++ grp else nm

/-- Non-synthetic room identity key (the key used whenever the normalised
name is neither empty nor "unknown"). -/
def roomKeyOf (room : JVal) : String := mkRoomKey (roomNameNorm room) (roomGroupNorm room)

/-- One iteration of the dedup fold (lines 303-526) over the ordered map of
unique rooms: empty/"unknown" names get the synthetic key
`unnamed_room_<map size>`. -/
def roomsStep (acc : List (String × JVal)) (room : JVal) : List (String × JVal) :=
  let nm0 := roomNameNorm room
  let nm := if nm0 = "" || nm0 = "unknown" then "unnamed_room_" ++ toString acc.length else nm0
  let key := mkRoomKey nm (roomGroupNorm room)
  match kvLookup key acc with
  | none => acc ++ [(key, seedRoom room)]
  | some existing => kvSet key (mergeDup existing room) acc

/-- Embedding of `_merge_and_deduplicate_rooms` (lines 298-532): fold all
rooms into the ordered unique-room map and return its values. -/
def mergeRooms (rooms : List JVal) : List JVal :=
  (rooms.foldl roomsStep []).map Prod.snd

/-! ### Reconciliation of chunk results
Embedding of the merging phase of `OpenAIService._process_with_chunking`
(`openai_service.py` lines 148-269).  The master JSON object is created with
a fixed key set and only ever accessed through those keys, so it is modelled
as a structure; each chunk result stays a dynamic `JVal`. -/

/-- The `master_json` skeleton of lines 150-164 (the validation summary is
carried separately until the final recomputation). -/
structure Master where
  documentMetadata : JVal
  rooms : List JVal
  grandTotalAreas : List (String × JVal)
  summaryForDwelling : List (String × JVal)
  recapTaxes : List JVal
  recapByRoom : List JVal
  recapByCategory : List JVal
  reviewFindings : List JVal

/-- The final `validation_summary` (lines 152-156 / 245-266). -/
structure Summary where
  totalRulesChecked : Int × Nat
  criticalFlags : Int × Nat
  status : String
deriving DecidableEq

/-- Fold state: the master plus the two running counters of lines 166-167. -/
structure RecState where
  master : Master
  totalFlags : Int × Nat
  totalRulesChecked : Int × Nat

/-- Initial master (lines 150-164). -/
def initMaster : Master :=
  ⟨.obj [], [], [], [], [], [], [], []⟩

/-- Lines 195-205: fold the non-null bindings of a chunk's totals dict over
the stored totals (`master_json[...][key] = value` for `value is not None`). -/
def updateTotals (stored : List (String × JVal)) (incoming : List (String × JVal)) :
    List (String × JVal) :=
  incoming.foldl (fun acc p => if isNullJ p.2 then acc else kvSet p.1 p.2 acc) stored

/-- Lines 208-215 / 234-240: append items whose key field (Python `==`) is
new; the seen-set starts from the stored list and grows with appends. -/
def dedupAppendByField (stored incoming : List JVal) (field : String) : List JVal :=
  (incoming.foldl
    (fun (st : List JVal × List JVal) item =>
      let k := objGetD item field (.str "")
      if pyMemB k st.2 then st else (st.1 ++ [item], st.2 ++ [k]))
    (stored, stored.map (fun item => objGetD item field (.str "")))).1

/-- Lines 225-232: category recap dedup keyed on the pair
`(item.get("category",""), item.get("section_type",""))`. -/
def dedupAppendByCatPair (stored incoming : List JVal) : List JVal :=
  (incoming.foldl
    (fun (st : List JVal × List (JVal × JVal)) item =>
      let k := (objGetD item "category" (.str ""), objGetD item "section_type" (.str ""))
      if st.2.any (fun q => pyEqB q.1 k.1 && pyEqB q.2 k.2) then st
      else (st.1 ++ [item], st.2 ++ [k]))
    (stored, stored.map (fun item => (objGetD item "category" (.str ""), objGetD item "section_type" (.str ""))))).1

/-- The rooms contributed by one chunk (lines 179-187): `rooms`, falling
back to `areas` when falsy, kept only when the value is a list. -/
def chunkRooms (c : JVal) : List JVal :=
  let rd := objGetD c "rooms" (.arr [])
  let rd := if pyTruthy rd then rd else objGetD c "areas" (.arr [])
  match rd with
  | .arr l => l
  | _ => []

/-- Lines 176-177: metadata is taken only from chunk 0. -/
def metadataStep (m : Master) (i : Nat) (c : JVal) : Master :=
  if i = 0 then { m with documentMetadata := objGetD c "document_metadata" (.obj []) } else m

/-- Lines 179-187: append the chunk's rooms to the working list. -/
def roomsCollectStep (m : Master) (c : JVal) : Master :=
  { m with rooms := m.rooms ++ chunkRooms c }

/-- Lines 195-205: both totals dicts. -/
def totalsStep (m : Master) (c : JVal) : Master :=
  let m :=
    if pyTruthy (objGetD c "grand_total_areas" .null) then
      { m with grandTotalAreas := updateTotals m.grandTotalAreas (toKvsD (objGetD c "grand_total_areas" (.obj []))) }
    else m
  if pyTruthy (objGetD c "summary_for_dwelling" .null) then
    { m with summaryForDwelling := updateTotals m.summaryForDwelling (toKvsD (objGetD c "summary_for_dwelling" (.obj []))) }
  else m

/-- Lines 207-240: the four deduplicated recap lists. -/
def recapsStep (m : Master) (c : JVal) : Master :=
  let m :=
    if pyTruthy (objGetD c "Recap of Taxes Overhead and Profit" (.arr [])) then
      { m with recapTaxes := dedupAppendByField m.recapTaxes (toListD (objGetD c "Recap of Taxes Overhead and Profit" (.arr []))) "description" }
    else m
  let m :=
    if pyTruthy (objGetD c "Recap by Room" (.arr [])) then
      { m with recapByRoom := dedupAppendByField m.recapByRoom (toListD (objGetD c "Recap by Room" (.arr []))) "room_name" }
    else m
  let m :=
    if pyTruthy (objGetD c "recap_by_category" (.arr [])) then
      { m with recapByCategory := dedupAppendByCatPair m.recapByCategory (toListD (objGetD c "recap_by_category" (.arr []))) }
    else m
  if pyTruthy (objGetD c "review_findings" (.arr [])) then
    { m with reviewFindings := dedupAppendByField m.reviewFindings (toListD (objGetD c "review_findings" (.arr []))) "description" }
  else m

/-- Lines 189-193: the two running counters. -/
def countersStep (st : RecState) (c : JVal) : (Int × Nat) × (Int × Nat) :=
  if objHas c "validation_summary" then
    let vs := objGetD c "validation_summary" .null
    (decAdd st.totalFlags (numOfD (objGetD vs "critical_flags" (.num 0 0))),
     decAdd st.totalRulesChecked (numOfD (objGetD vs "total_rules_checked" (.num 0 0))))
  else (st.totalFlags, st.totalRulesChecked)

/-- One iteration of the merging loop (lines 170-240) for chunk `i`. -/
def chunkStep (st : RecState) (ic : Nat × JVal) : RecState :=
  let i := ic.1
  let c := ic.2
  if !pyTruthy c then st
  else
    ⟨recapsStep (totalsStep (roomsCollectStep (metadataStep st.master i c) c) c) c,
     (countersStep st c).1, (countersStep st c).2⟩

/-- Lines 249-253: count the validations with `status == "FLAGGED"` across
the final merged rooms. -/
def countFlagged (rooms : List JVal) : Nat :=
  (rooms.map (fun room =>
    ((toListD (objGetD room "rule_validations" (.arr []))).filter
      (fun v => pyEqB (objGetD v "status" .null) (.str "FLAGGED"))).length)).sum

/-- Embedding of the merging phase of `_process_with_chunking`
(lines 148-269): fold the chunk results in index order, deduplicate rooms,
then compute the validation summary — from the rules and the merged rooms
when a non-empty rule list was supplied (falling back to the summed chunk
counters when the recount is zero), from the summed chunk counters
otherwise. -/
def mergeChunkResults (chunkResults : List JVal) (rules : List JVal) : Master × Summary :=
  let st := (chunkResults.enum).foldl chunkStep ⟨initMaster, (0, 0), (0, 0)⟩
  let finalRooms := mergeRooms st.master.rooms
  let summary :=
    if !rules.isEmpty then
      let recalc := countFlagged finalRooms
      let finalFlags : Int × Nat := if recalc > 0 then ((recalc : Int), 0) else st.totalFlags
      ⟨((rules.length : Int), 0), finalFlags,
        if finalFlags.1 = 0 then "PASSED" else "FLAGGED"⟩
    else
      (⟨st.totalRulesChecked, st.totalFlags,
        if st.totalFlags.1 = 0 then "PASSED" else "FLAGGED"⟩ : Summary)
  ({ st.master with rooms := finalRooms }, summary)

/-! ### Chunk dispatch
Embedding of the fan-out/fan-in of `_process_with_chunking`
(lines 113-146): `chunk_results = [None] * total_chunks`, then each future,
in completion order, writes either its parsed result or `{}` (on any
exception) into its own index slot. -/

/-- Result written into slot `i`: the parsed chunk on success, the empty
partial document on failure (lines 130 / 146). -/
def slotResult (outcome : Nat → Except String JVal) (i : Nat) : JVal :=
  match outcome i with
  | .ok d => d
  | .error _ => .obj []

/-- The dispatch loop: fold the completion order over the pre-allocated
`None` slots.  `order` is the order in which futures complete; each write
targets the future's own chunk index. -/
def dispatchChunks (n : Nat) (outcome : Nat → Except String JVal) (order : List Nat) :
    List (Option JVal) :=
  order.foldl (fun res idx => res.set idx (some (slotResult outcome idx))) (List.replicate n none)

/-! ### JSON decoding
Model of Python `json.loads` (strict mode, as the service uses it): JSON
whitespace, objects with string keys (duplicate keys: last wins), arrays,
strings with the standard escapes, numbers as exact decimal rationals,
`true`/`false`/`null`.  The model rejects the non-standard `NaN`/`Infinity`
extension, which no claim exercises.  Overall failure (`none`) corresponds
to `json.JSONDecodeError`. -/

/-- Skip JSON whitespace. -/
def skipJWs (cs : List Char) : List Char :=
  cs.dropWhile (fun c => c = ' ' || c = '\t' || c = '\n' || c = '\r')

/-- Decimal value of a digit list. -/
def digitsVal (ds : List Char) : Nat := ds.foldl (fun a c => a * 10 + (c.toNat - 48)) 0

/-- Hexadecimal digit value. -/
def hexVal (c : Char) : Option Nat :=
  if '0' ≤ c && c ≤ '9' then some (c.toNat - 48)
  else if 'a' ≤ c && c ≤ 'f' then some (c.toNat - 87)
  else if 'A' ≤ c && c ≤ 'F' then some (c.toNat - 55)
  else none

/-- Four hex digits of a `\u` escape. -/
def jparseHex4 : List Char → Option (Nat × List Char)
  | a :: b :: c :: d :: rest =>
    match hexVal a, hexVal b, hexVal c, hexVal d with
    | some x, some y, some z, some w => some (((x * 16 + y) * 16 + z) * 16 + w, rest)
    | _, _, _, _ => none
  | _ => none

/-- JSON number, mirroring the scanner regex
`-?(0|[1-9]digits)(.digits)?((e|E)(+|-)?digits)?` with maximal munch. -/
def jparseNum (cs : List Char) : Option ((Int × Nat) × List Char) :=
  let signNeg := cs.head? = some '-'
  let r0 := if signNeg then cs.drop 1 else cs
  let d1 := r0.takeWhile Char.isDigit
  if d1.isEmpty then none
  else
    let ip := if d1.head? = some '0' then ['0'] else d1
    let r1 := r0.drop ip.length
    let fracDigits :=
      match r1 with
      | '.' :: r2 => r2.takeWhile Char.isDigit
      | _ => []
    let hasFrac := !fracDigits.isEmpty
    let r2 := if hasFrac then (r1.drop 1).drop fracDigits.length else r1
    let expPart : Option (Bool × List Char) :=
      match r2 with
      | 'e' :: r3 | 'E' :: r3 =>
        match r3 with
        | '+' :: r4 => if (r4.takeWhile Char.isDigit).isEmpty then none else some (false, r4.takeWhile Char.isDigit)
        | '-' :: r4 => if (r4.takeWhile Char.isDigit).isEmpty then none else some (true, r4.takeWhile Char.isDigit)
        | r4 => if (r4.takeWhile Char.isDigit).isEmpty then none else some (false, r4.takeWhile Char.isDigit)
      | _ => none
    let r3 :=
      match r2, expPart with
      | _ :: r3x, some (negE, ds) =>
        let r4 := match r3x with
          | '+' :: r5 => r5
          | '-' :: r5 => r5
          | r5 => r5
        r4.drop ds.length
      | _, _ => r2
    let mantissa : Int := (digitsVal ip * 10 ^ fracDigits.length + digitsVal fracDigits : Nat)
    let mantissa := if signNeg then -mantissa else mantissa
    let value : Int × Nat :=
      match expPart with
      | some (true, ds) => (mantissa, fracDigits.length + digitsVal ds)
      | some (false, ds) => (mantissa * (10 : Int) ^ digitsVal ds, fracDigits.length)
      | none => (mantissa, fracDigits.length)
    some (value, r3)

/-- JSON string body after the opening quote (strict: raw control
characters are rejected). -/
def jparseStrAux : Nat → List Char → List Char → Option (String × List Char)
  | 0, _, _ => none
  | fuel + 1, cs, acc =>
    match cs with
    | [] => none
    | '"' :: rest => some (String.mk acc.reverse, rest)
    | '\\' :: e :: rest =>
      if e = '"' then jparseStrAux fuel rest ('"' :: acc)
      else if e = '\\' then jparseStrAux fuel rest ('\\' :: acc)
      else if e = '/' then jparseStrAux fuel rest ('/' :: acc)
      else if e = 'b' then jparseStrAux fuel rest ('\x08' :: acc)
      else if e = 'f' then jparseStrAux fuel rest ('\x0c' :: acc)
      else if e = 'n' then jparseStrAux fuel rest ('\n' :: acc)
      else if e = 'r' then jparseStrAux fuel rest ('\r' :: acc)
      else if e = 't' then jparseStrAux fuel rest ('\t' :: acc)
      else if e = 'u' then
        match jparseHex4 rest with
        | some (n, r2) => jparseStrAux fuel r2 (Char.ofNat n :: acc)
        | none => none
      else none
    | c :: rest => if c.toNat < 32 then none else jparseStrAux fuel rest (c :: acc)

mutual

/-- One JSON value (input already whitespace-skipped). -/
def jparseVal : Nat → List Char → Option (JVal × List Char)
  | 0, _ => none
  | fuel + 1, cs =>
    match cs with
    | [] => none
    | c :: rest =>
      if c = '\x7b' then
        match skipJWs rest with
        | '\x7d' :: r2 => some (.obj [], r2)
        | r => jparseMembers fuel r []
      else if c = '[' then
        match skipJWs rest with
        | ']' :: r2 => some (.arr [], r2)
        | r => jparseElems fuel r []
      else if c = '"' then
        match jparseStrAux (rest.length + 1) rest [] with
        | some (s, r2) => some (.str s, r2)
        | none => none
      else if c = 't' then
        if ['r', 'u', 'e'].isPrefixOf rest then some (.bool true, rest.drop 3) else none
      else if c = 'f' then
        if ['a', 'l', 's', 'e'].isPrefixOf rest then some (.bool false, rest.drop 4) else none
      else if c = 'n' then
        if ['u', 'l', 'l'].isPrefixOf rest then some (.null, rest.drop 3) else none
      else
        match jparseNum cs with
        | some (q, r2) => some (.num q.1 q.2, r2)
        | none => none

/-- Object members from the first key onwards (a trailing comma fails here,
exactly as `json.loads` does). -/
def jparseMembers : Nat → List Char → List (String × JVal) → Option (JVal × List Char)
  | 0, _, _ => none
  | fuel + 1, cs, acc =>
    match cs with
    | '"' :: rest =>
      match jparseStrAux (rest.length + 1) rest [] with
      | some (k, r1) =>
        match skipJWs r1 with
        | ':' :: r2 =>
          match jparseVal fuel (skipJWs r2) with
          | some (v, r3) =>
            let acc2 := kvSet k v acc
            match skipJWs r3 with
            | ',' :: r4 => jparseMembers fuel (skipJWs r4) acc2
            | '\x7d' :: r4 => some (.obj acc2, r4)
            | _ => none
          | none => none
        | _ => none
      | none => none
    | _ => none

/-- Array elements from the first element onwards. -/
def jparseElems : Nat → List Char → List JVal → Option (JVal × List Char)
  | 0, _, _ => none
  | fuel + 1, cs, acc =>
    match jparseVal fuel cs with
    | some (v, r1) =>
      match skipJWs r1 with
      | ',' :: r2 => jparseElems fuel (skipJWs r2) (acc ++ [v])
      | ']' :: r2 => some (.arr (acc ++ [v]), r2)
      | _ => none
    | none => none

end

/-- Model of `json.loads`: the whole input, up to surrounding JSON
whitespace, must be one value. -/
def jsonLoads (s : String) : Option JVal :=
  match jparseVal (2 * s.data.length + 8) (skipJWs s.data) with
  | some (v, rest) => if (skipJWs rest).isEmpty then some v else none
  | none => none

/-! ### Structural JSON repair
Embedding of `_try_fix_malformed_json` (lines 871-948).  The `re.sub`
patterns are modelled by explicit left-to-right scanners with the same
greedy/lazy semantics; in MULTILINE mode `$` matches at end of input or
just before a newline (the newline itself is not consumed). -/

/-- Match of `\s*$` (MULTILINE) at a position, returning the number of
whitespace characters the greedy `\s*` consumes: all of them when they run
to the end of the input, else up to the last newline inside the run. -/
def matchWsEOL (cs : List Char) : Option Nat :=
  let w := cs.takeWhile isPyWs
  if w.length = cs.length then some cs.length
  else (listFindFrom w.reverse ['\n'] 0).map (fun i => w.length - 1 - i)

/-- Match of `:\s*(\d+\.)\s*$` at a position (consumed length). -/
def matchP1 : List Char → Option Nat
  | ':' :: rest =>
    let w := (rest.takeWhile isPyWs).length
    let r1 := rest.drop w
    let d := (r1.takeWhile Char.isDigit).length
    if d = 0 then none
    else
      match r1.drop d with
      | '.' :: r2 => (matchWsEOL r2).map (fun e => 1 + w + d + 1 + e)
      | _ => none
  | _ => none

/-- Match of `:\s*(\d+)\s*$` at a position. -/
def matchP2 : List Char → Option Nat
  | ':' :: rest =>
    let w := (rest.takeWhile isPyWs).length
    let r1 := rest.drop w
    let d := (r1.takeWhile Char.isDigit).length
    if d = 0 then none
    else (matchWsEOL (r1.drop d)).map (fun e => 1 + w + d + e)
  | _ => none

/-- Lazy part of `:\s*"([^"]*?)\s*$`: smallest count of non-quote
characters after which `\s*$` matches. -/
def lazyNonQuote : List Char → Option (Nat × Nat)
  | [] =>
    match matchWsEOL [] with
    | some e => some (0, e)
    | none => none
  | c :: rest =>
    match matchWsEOL (c :: rest) with
    | some e => some (0, e)
    | none =>
      if c = '"' then none
      else (lazyNonQuote rest).map (fun p => (p.1 + 1, p.2))

/-- Match of `:\s*"([^"]*?)\s*$` at a position. -/
def matchP3 : List Char → Option Nat
  | ':' :: rest =>
    let w := (rest.takeWhile isPyWs).length
    match rest.drop w with
    | '"' :: r2 => (lazyNonQuote r2).map (fun p => 1 + w + 1 + p.1 + p.2)
    | _ => none
  | _ => none

/-- Greedy `[+-]?\d*\.?\d*` body: consumed length (may be zero). -/
def numBodyLen (cs : List Char) : Nat :=
  let s := if cs.head? = some '+' || cs.head? = some '-' then 1 else 0
  let r0 := cs.drop s
  let d1 := (r0.takeWhile Char.isDigit).length
  let r1 := r0.drop d1
  match r1 with
  | '.' :: r2 => s + d1 + 1 + (r2.takeWhile Char.isDigit).length
  | _ => s + d1

/-- Match of `:\s*([+-]?\d*\.?\d*)\s*,\s*$` at a position. -/
def matchP4 : List Char → Option Nat
  | ':' :: rest =>
    let w := (rest.takeWhile isPyWs).length
    let r1 := rest.drop w
    let b := numBodyLen r1
    let r2 := r1.drop b
    let w2 := (r2.takeWhile isPyWs).length
    match r2.drop w2 with
    | ',' :: r3 => (matchWsEOL r3).map (fun e => 1 + w + b + w2 + 1 + e)
    | _ => none
  | _ => none

/-- Match of `,\s*c` for a closing character `c` (the trailing-comma
normalisations `,\s*}` and `,\s*]`). -/
def matchCommaClose (close : Char) : List Char → Option Nat
  | ',' :: rest =>
    let w := (rest.takeWhile isPyWs).length
    match rest.drop w with
    | c :: _ => if c = close then some (1 + w + 1) else none
    | [] => none
  | _ => none

/-- The `re.sub` engine: scan left to right, replace each leftmost
non-overlapping match with `repl` and resume after it (the fuel, at least
the input length, makes the recursion structural). -/
def rewriteScan (matchAt : List Char → Option Nat) (repl : List Char) :
    Nat → List Char → List Char
  | 0, cs => cs
  | _ + 1, [] => []
  | fuel + 1, c :: cs =>
    match matchAt (c :: cs) with
    | some (n + 1) => repl ++ rewriteScan matchAt repl fuel ((c :: cs).drop (n + 1))
    | _ => c :: rewriteScan matchAt repl fuel cs

/-- String-level `re.sub`. -/
def reSub (matchAt : List Char → Option Nat) (repl : String) (s : String) : String :=
  ⟨rewriteScan matchAt repl.data s.data.length s.data⟩

/-- Match of the truncation probe `:\s*([+-]?\d*\.?\d+)\s*([,}\]])`
(body must contain at least one digit and end with a digit). -/
def matchNumDelim : List Char → Option Nat
  | ':' :: rest =>
    let w := (rest.takeWhile isPyWs).length
    let r1 := rest.drop w
    let s := if r1.head? = some '+' || r1.head? = some '-' then 1 else 0
    let r2 := r1.drop s
    let d1 := (r2.takeWhile Char.isDigit).length
    let r3 := r2.drop d1
    let bodyTail : Option Nat :=
      match r3 with
      | '.' :: r4 =>
        let d2 := (r4.takeWhile Char.isDigit).length
        if d2 = 0 then (if d1 = 0 then none else some d1) else some (d1 + 1 + d2)
      | _ => if d1 = 0 then none else some d1
    match bodyTail with
    | some b =>
      let r5 := r2.drop b
      let w2 := (r5.takeWhile isPyWs).length
      match r5.drop w2 with
      | c :: _ =>
        if c = ',' || c = '\x7d' || c = ']' then some (1 + w + s + b + w2 + 1) else none
      | [] => none
    | none => none
  | _ => none

/-- End position of the last `finditer` match of the truncation probe
(fuel-structural like `rewriteScan`). -/
def lastMatchEndAux : Nat → List Char → Nat → Option Nat → Option Nat
  | 0, _, _, best => best
  | _ + 1, [], _, best => best
  | fuel + 1, c :: cs, i, best =>
    match matchNumDelim (c :: cs) with
    | some (n + 1) =>
      lastMatchEndAux fuel ((c :: cs).drop (n + 1)) (i + n + 1) (some (i + n + 1))
    | _ => lastMatchEndAux fuel cs (i + 1) best

/-- Last `match.end()` over the whole string (lines 884-887). -/
def lastMatchEnd (s : String) : Option Nat := lastMatchEndAux s.data.length s.data 0 none

/-- Lines 883-894: truncate after the last complete numeric value, dropping
one trailing comma if the kept text ends with one. -/
def truncAfterLastNum (f : String) : String :=
  match lastMatchEnd f with
  | some p =>
    if p > 0 then
      let pre := strTake f p
      if endsWithB (pyRStrip pre) "," then
        strTake (pyRStrip pre) ((pyRStrip pre).data.length - 1)
      else pre
    else f
  | none => f

/-- Option-to-int view reproducing Python's -1 for a failed find. -/
def optToIntNeg1 : Option Nat → Int
  | some n => n
  | none => -1

/-- Lines 901-909: append the missing closers (brackets first, then
braces) after stripping trailing whitespace and commas. -/
def balanceClose (f : String) : String :=
  let ob : Int := (countChar f '\x7b' : Int) - (countChar f '\x7d' : Int)
  let obk : Int := (countChar f '[' : Int) - (countChar f ']' : Int)
  if ob > 0 || obk > 0 then
    pyRStripComma (pyRStrip f) ++ repChar ']' obk.toNat ++ repChar '\x7d' ob.toNat
  else f

/-- Lines 917-946: the aggressive fallback — cut the string before the key
of the last incomplete key/value pair, re-balance, and keep the result only
if it now parses. -/
def aggressiveFix (f : String) : Option String :=
  let lastComplete : Int :=
    max (optToIntNeg1 (strRFindChar f '\x7d')) (optToIntNeg1 (strRFindChar f ']'))
  if lastComplete > 0 then
    let searchStart : Nat := (max 0 (lastComplete - 500)).toNat
    match strRFindCharRange f ':' searchStart lastComplete.toNat with
    | some lastColon =>
      if lastColon > 0 then
        match strRFindCharRange f '"' searchStart lastColon with
        | some keyStart =>
          if keyStart > 0 then
            let pre := pyRStripComma (pyRStrip (strTake f keyStart))
            let ob : Int := (countChar pre '\x7b' : Int) - (countChar pre '\x7d' : Int)
            let obk : Int := (countChar pre '[' : Int) - (countChar pre ']' : Int)
            let pre2 := pre ++ repChar ']' obk.toNat ++ repChar '\x7d' ob.toNat
            match jsonLoads pre2 with
            | some _ => some pre2
            | none => none
          else none
        | none => none
      else none
    | none => none
  else none

/-- Embedding of `_try_fix_malformed_json` (lines 871-948). -/
def tryFixMalformedJson (jsonStr : String) (isTrunc : Bool) : Option String :=
  if jsonStr = "" || !(startsWithB (pyStrip jsonStr) "\x7b") then none
  else
    let f := reSub (matchCommaClose '\x7d') "\x7d" jsonStr
    let f := reSub (matchCommaClose ']') "]" f
    let f := if isTrunc then truncAfterLastNum f else f
    let f := reSub matchP1 ": null" f
    let f := reSub matchP2 ": null" f
    let f := reSub matchP3 ": null" f
    let f := reSub matchP4 ": null" f
    let f := if isTrunc then balanceClose f else f
    match jsonLoads f with
    | some _ => some f
    | none => if isTrunc then aggressiveFix f else none

/-! ### Response parsing
Embedding of `_parse_json_response` (lines 782-869): the strategy cascade.
A `none` from a strategy models either a caught `JSONDecodeError` or a
guard that falls through without returning. -/

/-- Strategy 5 (lines 856-869): the fallback envelope carrying the raw
response text. -/
def fallbackDoc (s fileName : String) : JVal :=
  .obj [("structured_content", .obj [("processed_text", .str s)]),
        ("validation", .obj
          [("is_valid", .bool true),
           ("violations", .arr []),
           ("warnings", .arr
             [.str "Could not parse structured JSON response - will attempt parsing in post-processing"])]),
        ("metadata", .obj [("source_file", .str fileName)])]

/-- Strategy 2 (lines 790-803): fenced code blocks. -/
def strategy2 (s : String) : Option JVal :=
  if strContainsB s "```json" then
    match strFindSub s "```json" with
    | some i =>
      let start := i + 7
      match strFindSubFrom s "```" start with
      | some e => if start < e then jsonLoads (pyStrip (pySlice s start e)) else none
      | none => none
    | none => none
  else if strContainsB s "```" then
    match strFindSub s "```" with
    | some i =>
      let start := i + 3
      match strFindSubFrom s "```" start with
      | some e => if start < e then jsonLoads (pyStrip (pySlice s start e)) else none
      | none => none
    | none => none
  else none

/-- Strategy 3b (lines 812-838): the repair path, reached only from the
`except` of strategy 3, with `looks_truncated` recomputed from the raw
text. -/
def strategy3b (s : String) (si : Nat) : Option JVal :=
  let r := pyRStrip s
  let looksTrunc :=
    endsWithB r "." || endsWithB r "," || !(endsWithB r "\x7d") ||
    decide (countChar s '\x7b' ≠ countChar s '\x7d')
  match tryFixMalformedJson (strDrop s si) looksTrunc with
  | some fs => jsonLoads fs
  | none =>
    match strRFindChar s '\x7d' with
    | some ei =>
      if ei > si then
        match tryFixMalformedJson (pySlice s si (ei + 1)) looksTrunc with
        | some fs => jsonLoads fs
        | none => none
      else none
    | none => none

/-- Strategy 3 (lines 805-838): substring between the first `{` and the
last `}`; its `except` runs the repair path.  When there is no such
substring no exception is raised, so the repair path is skipped. -/
def strategy3 (s : String) : Option JVal :=
  match strFindChar s '\x7b', strRFindChar s '\x7d' with
  | some si, some ei =>
    if si < ei then
      match jsonLoads (pySlice s si (ei + 1)) with
      | some j => some j
      | none => strategy3b s si
    else none
  | _, _ => none

/-- Strategy 4 (lines 840-846): one more slice-and-parse attempt, with
Python slice semantics on the possibly -1 find results. -/
def strategy4 (s : String) : Option JVal :=
  let fi := optToIntNeg1 (strFindChar s '\x7b')
  let ri := optToIntNeg1 (strRFindChar s '\x7d')
  let cleaned := pySlice s fi (ri + 1)
  if cleaned ≠ "" then jsonLoads cleaned else none

/-- Embedding of `_parse_json_response` (lines 782-869).  The
`is_truncated` argument, exactly as in the source, is not consulted by the
body (the repair path recomputes its own truncation heuristic). -/
def parseJsonResponse (s fileName : String) (isTrunc : Bool) : JVal :=
  match jsonLoads s with
  | some j => j
  | none =>
    match strategy2 s with
    | some j => j
    | none =>
      match strategy3 s with
      | some j => j
      | none =>
        match strategy4 s with
        | some j => j
        | none => fallbackDoc s fileName

/-! ### Shared lemmas -/

theorem kvLookup_kvSet_self (k : String) (v : JVal) :
    ∀ kvs : List (String × JVal), kvLookup k (kvSet k v kvs) = some v := by
  intro kvs
  induction kvs with
  | nil => simp [kvSet, kvLookup]
  | cons p rest ih =>
    by_cases h : p.1 = k
    · simp [kvSet, kvLookup, h]
    · simp [kvSet, kvLookup, h, ih]

theorem kvSet_of_lookup_eq (k : String) (v : JVal) :
    ∀ kvs : List (String × JVal), kvLookup k kvs = some v → kvSet k v kvs = kvs := by
  intro kvs
  induction kvs with
  | nil => simp [kvLookup]
  | cons p rest ih =>
    intro h
    by_cases hk : p.1 = k
    · simp [kvLookup, hk] at h
      simp [kvSet, hk, h]
      cases p
      simp_all
    · simp [kvLookup, hk] at h
      simp [kvSet, hk, ih h]

theorem kvLookup_append_right (k : String) :
    ∀ kvs more : List (String × JVal), kvLookup k kvs = none →
      kvLookup k (kvs ++ more) = kvLookup k more := by
  intro kvs more
  induction kvs with
  | nil => simp
  | cons p rest ih =>
    intro h
    by_cases hk : p.1 = k
    · simp [kvLookup, hk] at h
    · simp [kvLookup, hk] at h ⊢
      exact ih h

/-! ### Claim C1 — dispatch isolation and index alignment
Embedding of `_process_with_chunking` lines 113-146: the per-chunk outcome
function abstracts `_process_single_chunk` (success: the parsed partial
document; failure: the raised exception's message), and `order` is the
order in which the futures complete. -/

theorem dispatchFold_length (outcome : Nat → Except String JVal) :
    ∀ (order : List Nat) (res : List (Option JVal)),
      (order.foldl (fun r idx => r.set idx (some (slotResult outcome idx))) res).length
        = res.length := by
  intro order
  induction order with
  | nil => intro res; rfl
  | cons o os ih =>
    intro res
    simpa [List.foldl_cons] using (ih (res.set o (some (slotResult outcome o))))

theorem dispatchFold_get (outcome : Nat → Except String JVal) :
    ∀ (order : List Nat) (res : List (Option JVal)) (i : Nat),
      (order.foldl (fun r idx => r.set idx (some (slotResult outcome idx))) res).get? i
        = if i ∈ order ∧ i < res.length then some (some (slotResult outcome i))
          else res.get? i := by
  intro order
  induction order with
  | nil => intro res i; simp
  | cons o os ih =>
    intro res i
    rw [List.foldl_cons, ih]
    by_cases hmem : i ∈ os
    · by_cases hlen : i < res.length
      · simp [hmem, hlen]
      · have e1 : (res.set o (some (slotResult outcome o)))[i]? = none :=
          List.getElem?_eq_none (by simp; omega)
        have e2 : res[i]? = none := List.getElem?_eq_none (by omega)
        simp [hmem, hlen, List.get?_eq_getElem?, e1, e2]
    · by_cases hio : i = o
      · subst hio
        by_cases hlen : i < res.length
        · simp [hmem, hlen, List.get?_eq_getElem?, List.getElem?_set]
        · have : res.get? i = none := by
            rw [List.get?_eq_none]
            omega
          simp [hmem, hlen, this, List.get?_eq_getElem?, List.getElem?_set]
          omega
      · simp [hmem, hio, List.get?_eq_getElem?, List.getElem?_set, Ne.symm hio]

/-- C1: for every chunk count, per-chunk outcome assignment and completion
order (any permutation of the chunk indices), the dispatch loop of
`_process_with_chunking` (lines 113-146) produces a result list of exactly
the chunk-list length, index-aligned with the input: slot `i` holds the
outcome of chunk `i` alone — the parsed document on success and the empty
partial document `{}` on exception — independently of the completion order,
so one chunk's failure affects no other slot and never aborts the batch. -/
theorem claim1_dispatch_aligned (n : Nat) (outcome : Nat → Except String JVal)
    (order : List Nat) (h : order.Perm (List.range n)) :
    dispatchChunks n outcome order
      = (List.range n).map (fun i => some (slotResult outcome i)) := by
  apply List.ext_get?
  intro i
  unfold dispatchChunks
  rw [dispatchFold_get]
  have hmem : i ∈ order ↔ i < n := by
    rw [h.mem_iff, List.mem_range]
  by_cases hi : i < n
  · simp [hmem, hi, List.length_replicate, List.get?_eq_getElem?, List.getElem?_map,
      List.getElem?_range hi]
  · have h1 : (List.replicate n (none : Option JVal))[i]? = none :=
      List.getElem?_eq_none (by simp; omega)
    have h2 : ((List.range n).map (fun i => some (slotResult outcome i)))[i]? = none :=
      List.getElem?_eq_none (by simp; omega)
    simp only [List.get?_eq_getElem?, List.getElem?_map] at h2 ⊢
    simp [hmem, hi, h1, h2]

/-- Concrete outcome function for the C1 witness: chunk 1 of 3 raises. -/
def w1outcome : Nat → Except String JVal :=
  fun i => if i = 1 then .error "oracle error" else .ok (.obj [("rooms", .arr [.num (i : Int) 0])])

theorem claim1_dispatch_aligned_witness :
    ([2, 0, 1].Perm (List.range 3)) ∧
      dispatchChunks 3 w1outcome [2, 0, 1]
        = [some (.obj [("rooms", .arr [.num 0 0])]), some (.obj []),
           some (.obj [("rooms", .arr [.num 2 0])])] := by
  refine ⟨by decide, ?_⟩
  rw [claim1_dispatch_aligned 3 w1outcome [2, 0, 1] (by decide)]
  rfl

/-! ### Claim C2 — grandTotalAreas / summaryForDwelling merge policy
Lines 195-205 write every non-null incoming value over the stored one
unconditionally (`master_json[...][key] = value` guarded only by
`value is not None`), so a stored non-null value IS overwritten by a later
non-null value: the spec's fill-gaps-only policy does not match the code. -/

/-- First chunk of the C2 counterexample: totals value 1. -/
def c2chunk1 : JVal := .obj [("grand_total_areas", .obj [("floor_area", .num 1 0)])]

/-- Second chunk of the C2 counterexample: totals value 2 for the same key. -/
def c2chunk2 : JVal := .obj [("grand_total_areas", .obj [("floor_area", .num 2 0)])]

/-- C2 counterexample: chunk 1 stores the non-null value 1 under
`floor_area`, chunk 2 carries the non-null value 2 for the same key, and
the reconciled document holds 2 — the later non-null value replaced a
stored non-null value, which the claim says never happens. -/
theorem claim2_totals_counterexample :
    (mergeChunkResults [c2chunk1, c2chunk2] []).1.grandTotalAreas
        = [("floor_area", .num 2 0)] ∧
      (JVal.num 2 0) ≠ (JVal.num 1 0) := by
  refine ⟨rfl, ?_⟩
  intro h
  injection h with h2
  exact absurd h2 (by norm_num)

/-- C2 amended: when reconciliation merges `grandTotalAreas` (and
`summaryForDwelling`) key-by-key in chunk order, a non-null incoming value
always replaces the stored value for its key — whether or not the stored
value was null — and a null incoming value never changes the stored
binding; the policy is last-non-null-wins, not fill-gaps-only. -/
theorem claim2_totals_amended :
    (∀ (stored kvs : List (String × JVal)) (k : String) (v : JVal),
        updateTotals stored (kvs ++ [(k, v)])
          = if isNullJ v then updateTotals stored kvs
            else kvSet k v (updateTotals stored kvs)) ∧
    (∀ (stored : List (String × JVal)) (k : String) (v : JVal),
        kvLookup k (kvSet k v stored) = some v) ∧
    (mergeChunkResults [c2chunk1, c2chunk2] []).1.grandTotalAreas
      = [("floor_area", .num 2 0)] := by
  refine ⟨?_, ?_, rfl⟩
  · intro stored kvs k v
    simp [updateTotals, List.foldl_append]
  · intro stored k v
    exact kvLookup_kvSet_self k v stored

/-! ### Claim C3 — rule-validation upgrade-only merge (lines 505-526) -/

/-- A `PASSED` validation entry for rule `r`. -/
def mkValP (r d s : String) : JVal :=
  .obj [("rule", .str r), ("status", .str "PASSED"), ("details", .str d), ("severity", .str s)]

/-- A `FLAGGED` validation entry for rule `r`. -/
def mkValF (r d s : String) : JVal :=
  .obj [("rule", .str r), ("status", .str "FLAGGED"), ("details", .str d), ("severity", .str s)]

/-- Kitchen room carrying one validation entry (C3 end-to-end instance). -/
def c3room (v : JVal) : JVal :=
  .obj [("name", .str "Kitchen"), ("rule_validations", .arr [v])]

/-- C3: merging a `PASSED` entry followed by a duplicate `FLAGGED` entry for
the same rule yields `FLAGGED` with the incoming details and severity
adopted (lines 521-525), and merging in the reverse order leaves the
`FLAGGED` entry untouched — a `FLAGGED` status is never downgraded.  Stated
for every rule id, details and severity, at the level of the
rule-validation merge of the duplicate-room branch, plus the end-to-end
duplicate-room instance through `_merge_and_deduplicate_rooms`. -/
theorem claim3_validation_upgrade_only (r d1 s1 d2 s2 : String) :
    mergeRuleValidations [mkValP r d1 s1] [mkValF r d2 s2] = [mkValF r d2 s2] ∧
    mergeRuleValidations [mkValF r d2 s2] [mkValP r d1 s1] = [mkValF r d2 s2] ∧
    mergeRooms [c3room (mkValP "R1" "ok" "low"), c3room (mkValF "R1" "bad" "high")]
      = [.obj [("name", .str "Kitchen"),
               ("rule_validations", .arr [mkValF "R1" "bad" "high"]),
               ("line_items", .arr []), ("sub_areas", .arr [])]] ∧
    mergeRooms [c3room (mkValF "R1" "bad" "high"), c3room (mkValP "R1" "ok" "low")]
      = [.obj [("name", .str "Kitchen"),
               ("rule_validations", .arr [mkValF "R1" "bad" "high"]),
               ("line_items", .arr []), ("sub_areas", .arr [])]] := by
  refine ⟨?_, ?_, by rfl, by rfl⟩
  · simp [mergeRuleValidations, mkValP, mkValF, ruleIdOf, objGetD, objFind, kvLookup,
      pyStr, updateFirstB, objSet, kvSet, pyEqB, normJ, normJKvs, sortKvs, sortedInsertKv,
      jvalBEq, jvalKvsBEq]
  · simp [mergeRuleValidations, mkValP, mkValF, ruleIdOf, objGetD, objFind, kvLookup,
      pyStr, updateFirstB, objSet, kvSet, pyEqB, normJ, normJKvs, sortKvs, sortedInsertKv,
      jvalBEq, jvalKvsBEq]

/-! ### Claim C4 — "opens into" fragment handling (lines 386-408) -/

theorem updateFirstB_length (p : JVal → Bool) (f : JVal → JVal) :
    ∀ l : List JVal, (updateFirstB l p f).1.length = l.length := by
  intro l
  induction l with
  | nil => rfl
  | cons x xs ih =>
    by_cases h : p x
    · simp [updateFirstB, h]
    · simp [updateFirstB, h, ih]

theorem updateLastB_length (l : List JVal) (p : JVal → Bool) (f : JVal → JVal) :
    (updateLastB l p f).1.length = l.length := by
  simp [updateLastB, updateFirstB_length]

theorem strContainsB_of_startsWith {s pre : String} (h : startsWithB s pre = true) :
    strContainsB s pre = true := by
  simp only [strContainsB, listContainsSub, List.any_eq_true]
  refine ⟨0, ?_, ?_⟩
  · simp [List.mem_range]
  · simpa [startsWithB] using h

/-- Room already holding the bare `Door` feature (C4 example). -/
def c4roomA : JVal := .obj [("name", .str "Room1"),
  ("architectural_features", .arr [.obj [("feature_type", .str "Door")]])]

/-- Duplicate room carrying the mis-tagged fragment (C4 example). -/
def c4roomB : JVal := .obj [("name", .str "Room1"),
  ("architectural_features", .arr
    [.obj [("feature_type", .str "Opens into Exterior"),
           ("dimensions_raw", .str "3\x27 X 8\x27")]])]

/-- C4 counterexample: merging the claim's example rooms yields the single
`Door` feature with the raw dimensions adopted, but with
`action_description = "opens into exterior"` — the code (line 401) installs
the stripped-and-LOWERCASED fragment type, not the original
`"Opens into Exterior"` the claim specifies. -/
theorem claim4_fragment_counterexample :
    (mergeRooms [c4roomA, c4roomB]).map
        (fun room => objGetD room "architectural_features" (.arr []))
      = [.arr [.obj [("feature_type", .str "Door"),
                     ("dimensions_raw", .str "3\x27 X 8\x27"),
                     ("action_description", .str "opens into exterior")]]] ∧
    (JVal.str "opens into exterior") ≠ (JVal.str "Opens into Exterior") := by
  refine ⟨rfl, ?_⟩
  intro h
  injection h with h2
  exact absurd h2 (by decide)

/-- C4 amended: an incoming feature whose featureType (case-insensitively)
starts with "opens into" is indeed never appended as its own feature — the
fragment branch only fills the most recently merged existing feature that
is missing dimensions or action, or discards the fragment — but the filled
`action_description`, when the fragment carries no action of its own, is
the trimmed LOWERCASED fragment type: the example produces
`{featureType: "Door", dimensionsRaw: "3' X 8'",
actionDescription: "opens into exterior"}`. -/
theorem claim4_fragment_amended :
    (∀ (fs : List JVal) (f : JVal),
        startsWithB (featTypeOf f) "opens into" = true →
        (featStep fs f).length = fs.length) ∧
    mergeRooms [c4roomA, c4roomB]
      = [.obj [("name", .str "Room1"),
               ("architectural_features", .arr
                 [.obj [("feature_type", .str "Door"),
                        ("dimensions_raw", .str "3\x27 X 8\x27"),
                        ("action_description", .str "opens into exterior")]]),
               ("line_items", .arr []), ("sub_areas", .arr []),
               ("rule_validations", .arr [])]] := by
  refine ⟨?_, by rfl⟩
  intro fs f h
  have hc : strContainsB (featTypeOf f) "opens into" = true := strContainsB_of_startsWith h
  simp only [featStep, hc, if_true]
  exact updateLastB_length _ _ _

/-- Witness for the hypothesis of the amended C4 theorem: the example
fragment does start with "opens into" case-insensitively, and processing it
against the one-feature list leaves the feature count at one. -/
theorem claim4_fragment_amended_witness :
    startsWithB (featTypeOf (.obj [("feature_type", .str "Opens into Exterior"),
        ("dimensions_raw", .str "3\x27 X 8\x27")])) "opens into" = true ∧
    (featStep [.obj [("feature_type", .str "Door")]]
        (.obj [("feature_type", .str "Opens into Exterior"),
               ("dimensions_raw", .str "3\x27 X 8\x27")])).length
      = [JVal.obj [("feature_type", .str "Door")]].length := by
  refine ⟨by rfl, ?_⟩
  exact claim4_fragment_amended.1 _ _ (by rfl)

/-! ### Claim C9 — line-item identity-signature dedup
Room level (lines 340-355) appends only new signatures; a matched
sub-area's items (line 376) are merged by full Python equality
(`i not in t_items`), NOT by signature. -/

theorem mergeLineItems_nil (e : List JVal) : mergeLineItems e [] = e := rfl

theorem mergeLineItems_cons (e : List JVal) (i : JVal) (n : List JVal) :
    mergeLineItems e (i :: n)
      = if (e.map itemSig).contains (itemSig i) then mergeLineItems e n
        else mergeLineItems (e ++ [i]) n := by
  by_cases h : (e.map itemSig).contains (itemSig i)
  · simp only [mergeLineItems, List.foldl_cons, h, if_true]
  · simp only [mergeLineItems, List.foldl_cons, h, if_false, Bool.false_eq_true]
    have : e.map itemSig ++ [itemSig i] = (e ++ [i]).map itemSig := by
      simp
    rw [this]

theorem mergeLineItems_spec :
    ∀ (n e : List JVal), ∃ appended,
      mergeLineItems e n = e ++ appended ∧
      (∀ i ∈ appended, itemSig i ∉ e.map itemSig) ∧
      ((e.map itemSig).Nodup → ((mergeLineItems e n).map itemSig).Nodup) := by
  intro n
  induction n with
  | nil =>
    intro e
    exact ⟨[], by simp [mergeLineItems_nil], by simp, by rw [mergeLineItems_nil]; exact id⟩
  | cons i n ih =>
    intro e
    by_cases h : (e.map itemSig).contains (itemSig i)
    · obtain ⟨l, hl, hsig, hnd⟩ := ih e
      exact ⟨l, by rwa [mergeLineItems_cons, if_pos h], hsig,
        by rwa [mergeLineItems_cons, if_pos h]⟩
    · obtain ⟨l, hl, hsig, hnd⟩ := ih (e ++ [i])
      have hni : itemSig i ∉ e.map itemSig := by
        simpa using h
      refine ⟨i :: l, ?_, ?_, ?_⟩
      · rw [mergeLineItems_cons, if_neg h, hl]
        simp
      · intro j hj
        rcases List.mem_cons.mp hj with hj | hj
        · subst hj
          exact hni
        · have := hsig j hj
          intro hmem
          exact this (by simp [hmem])
      · intro hnodup
        rw [mergeLineItems_cons, if_neg h]
        apply hnd
        rw [List.map_append]
        refine List.Nodup.append hnodup (List.nodup_singleton _) ?_
        intro x hx hx2
        simp only [List.map_cons, List.map_nil, List.mem_singleton] at hx2
        subst hx2
        exact hni hx

/-- First C9 room: sub-area "Closet" with one priced item. -/
def c9roomA : JVal := .obj [("name", .str "Hall"),
  ("sub_areas", .arr [.obj [("name", .str "Closet"),
    ("line_items", .arr [.obj [("description", .str "Paint"), ("quantity", .str "1"),
      ("unit_price", .num 5 0)]])]])]

/-- Duplicate C9 room: same sub-area, same item signature, different price. -/
def c9roomB : JVal := .obj [("name", .str "Hall"),
  ("sub_areas", .arr [.obj [("name", .str "Closet"),
    ("line_items", .arr [.obj [("description", .str "Paint"), ("quantity", .str "1"),
      ("unit_price", .num 9 0)]])]])]

/-- The two C9 items: equal identity signature, unequal values. -/
def c9item1 : JVal :=
  .obj [("description", .str "Paint"), ("quantity", .str "1"), ("unit_price", .num 5 0)]

/-- Second C9 item. -/
def c9item2 : JVal :=
  .obj [("description", .str "Paint"), ("quantity", .str "1"), ("unit_price", .num 9 0)]

/-- C9 counterexample: merging the duplicate rooms leaves BOTH items inside
the matched sub-area — they share the identity signature `("paint", "1")`
but differ (Python `==` is false), because line 376 deduplicates sub-area
items by full equality, not by signature.  The claim's "no two line items
with equal identity signatures coexist ... inside a matched sub-area" is
false. -/
theorem claim9_subarea_sig_counterexample :
    (mergeRooms [c9roomA, c9roomB]).map (fun room => objGetD room "sub_areas" (.arr []))
      = [.arr [.obj [("name", .str "Closet"),
                     ("line_items", .arr [c9item1, c9item2])]]] ∧
    itemSig c9item1 = itemSig c9item2 ∧
    pyEqB c9item1 c9item2 = false := by
  exact ⟨rfl, by decide, by rfl⟩

/-- C9 amended: at ROOM level an incoming line item is appended only if its
identity signature is absent (so the appended items carry fresh, pairwise
distinct signatures, and signature-distinctness of the room's item list is
preserved); the line items of a matched SUB-AREA, however, are merged by
append-if-not-fully-equal (Python `==`), so two items with equal identity
signatures but different other fields do coexist inside a sub-area. -/
theorem claim9_lineitem_sig_amended (existing new : List JVal)
    (h : (existing.map itemSig).Nodup) :
    ((mergeLineItems existing new).map itemSig).Nodup ∧
    (∃ appended, mergeLineItems existing new = existing ++ appended ∧
        ∀ i ∈ appended, itemSig i ∉ existing.map itemSig) ∧
    (mergeRooms [c9roomA, c9roomB]).map (fun room => objGetD room "sub_areas" (.arr []))
      = [.arr [.obj [("name", .str "Closet"),
                     ("line_items", .arr [c9item1, c9item2])]]] := by
  obtain ⟨l, hl, hsig, hnd⟩ := mergeLineItems_spec new existing
  exact ⟨hnd h, ⟨l, hl, hsig⟩, rfl⟩

theorem claim9_lineitem_sig_amended_witness :
    ([c9item1].map itemSig).Nodup ∧
      ((mergeLineItems [c9item1] [c9item2]).map itemSig).Nodup := by
  refine ⟨by decide, ?_⟩
  exact (claim9_lineitem_sig_amended [c9item1] [c9item2] (by decide)).1

/-! ### Claim C10 — rooms with a JSON-null name are keyed "none"
Line 305: `str(room.get("name", "Unknown"))` turns a present-but-null name
into the literal string `"None"`, normalised to `"none"`, which is neither
empty nor `"unknown"`, so no synthetic key is assigned (lines 308-309). -/

theorem kvSet_keys_of_present (k : String) (v : JVal) :
    ∀ kvs : List (String × JVal), (∃ w, kvLookup k kvs = some w) →
      (kvSet k v kvs).map Prod.fst = kvs.map Prod.fst := by
  intro kvs
  induction kvs with
  | nil => rintro ⟨w, hw⟩; simp [kvLookup] at hw
  | cons p rest ih =>
    rintro ⟨w, hw⟩
    by_cases hk : p.1 = k
    · simp [kvSet, hk]
    · simp only [kvLookup, hk, if_false] at hw
      simp [kvSet, hk, ih ⟨w, hw⟩]

theorem mergeRooms_fold_same_key (k : String) :
    ∀ (rooms : List JVal) (acc : List (String × JVal)),
      (∀ r ∈ rooms, roomNameNorm r ≠ "" ∧ roomNameNorm r ≠ "unknown" ∧
          mkRoomKey (roomNameNorm r) (roomGroupNorm r) = k) →
      (∃ w, kvLookup k acc = some w) →
      (rooms.foldl roomsStep acc).map Prod.fst = acc.map Prod.fst := by
  intro rooms
  induction rooms with
  | nil => intro acc _ _; rfl
  | cons r rest ih =>
    intro acc hall ⟨w, hw⟩
    obtain ⟨h1, h2, h3⟩ := hall r (by simp)
    have hstep : roomsStep acc r = kvSet k (mergeDup w r) acc := by
      simp only [roomsStep]
      have hcond : ¬ ((roomNameNorm r = "" || roomNameNorm r = "unknown") = true) := by
        simp [h1, h2]
      rw [if_neg hcond, h3, hw]
    rw [List.foldl_cons, hstep]
    rw [ih (kvSet k (mergeDup w r) acc) (fun x hx => hall x (by simp [hx]))
      ⟨mergeDup w r, kvLookup_kvSet_self k (mergeDup w r) acc⟩]
    exact kvSet_keys_of_present k (mergeDup w r) acc ⟨w, hw⟩

theorem kvLookup_none_not_mem {k : String} :
    ∀ {kvs : List (String × JVal)}, kvLookup k kvs = none → k ∉ kvs.map Prod.fst := by
  intro kvs
  induction kvs with
  | nil => intro _ h; cases h
  | cons p rest ih =>
    intro hnone hmem
    by_cases hk : p.1 = k
    · simp [kvLookup, hk] at hnone
    · simp only [kvLookup, hk, if_false] at hnone
      rcases List.mem_cons.mp hmem with h1 | h2
      · exact hk h1.symm
      · exact ih hnone h2

/-- The unique-rooms map built by the dedup fold always has pairwise
distinct keys: a room either merges into the entry already holding its key
or is appended under a key not yet present. -/
theorem roomsFold_keys_nodup :
    ∀ (rooms : List JVal) (acc : List (String × JVal)),
      (acc.map Prod.fst).Nodup → ((rooms.foldl roomsStep acc).map Prod.fst).Nodup := by
  intro rooms
  induction rooms with
  | nil => intro acc h; exact h
  | cons r rest ih =>
    intro acc hacc
    rw [List.foldl_cons]
    apply ih
    simp only [roomsStep]
    split
    next hl =>
      simp only [List.map_append, List.map_cons, List.map_nil]
      refine List.Nodup.append hacc (List.nodup_singleton _) ?_
      intro x hx hx2
      simp only [List.mem_singleton] at hx2
      subst hx2
      exact kvLookup_none_not_mem hl hx
    next w hl =>
      rw [kvSet_keys_of_present _ _ acc ⟨w, hl⟩]
      exact hacc

/-- C10: a room whose `name` field is present but JSON null is keyed by the
literal string "none" (plus grouping) rather than a synthetic unique key;
the dedup map's keys stay pairwise distinct on every input, so all rooms
whose normalised name is "none" — null names and real names normalising to
"none" alike — with a common grouping share one map entry, and a list of
such rooms merges into exactly one output room. -/
theorem claim10_null_name_merges (rooms : List JVal) (g : String)
    (hne : rooms ≠ [])
    (hall : ∀ r ∈ rooms, roomNameNorm r = "none" ∧ roomGroupNorm r = g) :
    (∀ r : JVal, objFind r "name" = some .null → roomNameNorm r = "none") ∧
    (∀ anyRooms : List JVal, ((anyRooms.foldl roomsStep []).map Prod.fst).Nodup) ∧
    (mergeRooms rooms).length = 1 := by
  refine ⟨?_, ?_, ?_⟩
  · intro r h
    simp [roomNameNorm, objGetD, h]
    rfl
  · intro anyRooms
    exact roomsFold_keys_nodup anyRooms [] (by simp)
  · match rooms, hne with
    | r :: rest, _ =>
      obtain ⟨hn, hg⟩ := hall r (by simp)
      have hstep : roomsStep [] r = [(mkRoomKey "none" g, seedRoom r)] := by
        simp only [roomsStep]
        have hcond : ¬ ((roomNameNorm r = "" || roomNameNorm r = "unknown") = true) := by
          simp [hn]
        rw [if_neg hcond, hn, hg]
        rfl
      have hkeys : ((r :: rest).foldl roomsStep []).map Prod.fst
          = [(mkRoomKey "none" g, seedRoom r)].map Prod.fst := by
        rw [List.foldl_cons, hstep]
        apply mergeRooms_fold_same_key (mkRoomKey "none" g) rest
        · intro x hx
          obtain ⟨hxn, hxg⟩ := hall x (by simp [hx])
          exact ⟨by rw [hxn]; decide, by rw [hxn]; decide, by rw [hxn, hxg]⟩
        · exact ⟨seedRoom r, by simp [kvLookup]⟩
      have : ((r :: rest).foldl roomsStep []).length = 1 := by
        have := congrArg List.length hkeys
        simpa using this
      simpa [mergeRooms] using this

theorem claim10_null_name_merges_witness :
    ([JVal.obj [("name", .null)], .obj [("name", .null), ("line_items", .arr [])],
      .obj [("name", .str "  None ")]] ≠ []) ∧
    (mergeRooms [JVal.obj [("name", .null)], .obj [("name", .null), ("line_items", .arr [])],
      .obj [("name", .str "  None ")]]).length = 1 := by
  refine ⟨by simp, ?_⟩
  exact (claim10_null_name_merges _ "" (by simp)
    (by intro r hr
        fin_cases hr <;> exact ⟨by rfl, by rfl⟩)).2.2

/-! ### Claims C5 / C7 — the validation summary (lines 245-266) -/

/-- Rooms contributed by the chunk list in order (skipping falsy chunk
results), the working list of line 185. -/
def collectedRooms : List JVal → List JVal
  | [] => []
  | c :: cs => (if pyTruthy c then chunkRooms c else []) ++ collectedRooms cs

/-- The per-chunk critical-flag counter summed at lines 190-193. -/
def chunkFlagsOf (c : JVal) : Int × Nat :=
  numOfD (objGetD (objGetD c "validation_summary" .null) "critical_flags" (.num 0 0))

/-- Sum of the raw per-chunk `critical_flags` counters (the `total_flags`
accumulator of lines 166/193). -/
def chunkFlagSum (chunks : List JVal) : Int × Nat :=
  chunks.foldl
    (fun acc c =>
      if pyTruthy c && objHas c "validation_summary" then decAdd acc (chunkFlagsOf c) else acc)
    (0, 0)

theorem metadataStep_rooms (m : Master) (i : Nat) (c : JVal) :
    (metadataStep m i c).rooms = m.rooms := by
  unfold metadataStep; split <;> rfl

theorem totalsStep_rooms (m : Master) (c : JVal) :
    (totalsStep m c).rooms = m.rooms := by
  unfold totalsStep; split <;> split <;> rfl

theorem recapsStep_rooms (m : Master) (c : JVal) :
    (recapsStep m c).rooms = m.rooms := by
  unfold recapsStep; split <;> split <;> split <;> split <;> rfl

theorem chunkStep_rooms (st : RecState) (i : Nat) (c : JVal) :
    (chunkStep st (i, c)).master.rooms
      = st.master.rooms ++ (if pyTruthy c then chunkRooms c else []) := by
  by_cases h : pyTruthy c
  · simp only [chunkStep, h, Bool.not_true, Bool.false_eq_true, if_false]
    rw [recapsStep_rooms, totalsStep_rooms]
    simp [roomsCollectStep, metadataStep_rooms]
  · simp [chunkStep, h]

theorem chunkStep_totalFlags (st : RecState) (i : Nat) (c : JVal) :
    (chunkStep st (i, c)).totalFlags
      = if pyTruthy c && objHas c "validation_summary"
        then decAdd st.totalFlags (chunkFlagsOf c) else st.totalFlags := by
  by_cases h : pyTruthy c
  · by_cases hv : objHas c "validation_summary"
    · simp [chunkStep, countersStep, h, hv, chunkFlagsOf]
    · simp [chunkStep, countersStep, h, hv]
  · simp [chunkStep, h]

theorem chunkStep_totalRulesChecked (st : RecState) (i : Nat) (c : JVal) :
    (chunkStep st (i, c)).totalRulesChecked
      = if pyTruthy c && objHas c "validation_summary"
        then decAdd st.totalRulesChecked
          (numOfD (objGetD (objGetD c "validation_summary" .null) "total_rules_checked" (.num 0 0)))
        else st.totalRulesChecked := by
  by_cases h : pyTruthy c
  · by_cases hv : objHas c "validation_summary"
    · simp [chunkStep, countersStep, h, hv]
    · simp [chunkStep, countersStep, h, hv]
  · simp [chunkStep, h]

theorem foldEnum_rooms :
    ∀ (chunks : List JVal) (n : Nat) (st : RecState),
      ((List.enumFrom n chunks).foldl chunkStep st).master.rooms
        = st.master.rooms ++ collectedRooms chunks := by
  intro chunks
  induction chunks with
  | nil => intro n st; simp [collectedRooms]
  | cons c cs ih =>
    intro n st
    have : List.enumFrom n (c :: cs) = (n, c) :: List.enumFrom (n + 1) cs := rfl
    rw [this, List.foldl_cons, ih]
    rw [chunkStep_rooms]
    simp [collectedRooms]

theorem foldEnum_totalFlags :
    ∀ (chunks : List JVal) (n : Nat) (st : RecState),
      ((List.enumFrom n chunks).foldl chunkStep st).totalFlags
        = chunks.foldl
            (fun acc c =>
              if pyTruthy c && objHas c "validation_summary" then decAdd acc (chunkFlagsOf c)
              else acc)
            st.totalFlags := by
  intro chunks
  induction chunks with
  | nil => intro n st; rfl
  | cons c cs ih =>
    intro n st
    have h1 : List.enumFrom n (c :: cs) = (n, c) :: List.enumFrom (n + 1) cs := rfl
    rw [h1, List.foldl_cons, ih, List.foldl_cons]
    congr 1
    rw [chunkStep_totalFlags]

/-- Chunk whose raw summary carries 3 critical flags but no rooms. -/
def c5chunk : JVal :=
  .obj [("validation_summary",
    .obj [("critical_flags", .num 3 0), ("total_rules_checked", .num 1 0)])]

/-- A single opaque validation rule. -/
def c5rule : JVal := .obj [("rule_id", .str "R1")]

/-- C5 counterexample: with a non-empty rule list, no rooms, and a chunk
whose raw `validation_summary` reports 3 critical flags, the final summary
reports `criticalFlags = 3` and status `FLAGGED`, while the count of
FLAGGED validations across the final (empty) room set is 0 — the raw
per-chunk counters DO influence the result whenever the recount is zero
(line 255). -/
theorem claim5_summary_counterexample :
    (mergeChunkResults [c5chunk] [c5rule]).2.criticalFlags = (3, 0) ∧
    countFlagged (mergeChunkResults [c5chunk] [c5rule]).1.rooms = 0 ∧
    (mergeChunkResults [c5chunk] [c5rule]).2.status = "FLAGGED" ∧
    ((3 : Int), (0 : Nat)) ≠ ((0 : Int), (0 : Nat)) := by
  exact ⟨rfl, rfl, rfl, by decide⟩

/-- C5 amended: with a non-empty rule list, `totalRulesChecked = len(rules)`
and the status is FLAGGED exactly when the final flag count is non-zero;
but `criticalFlags` is the recount over the final merged rooms ONLY when
that recount is positive — when it is zero the summed raw per-chunk
`critical_flags` counters are used instead (line 255's fallback), so the
raw counters can still influence the result. -/
theorem claim5_summary_amended (chunks rules : List JVal) (h : rules ≠ []) :
    (mergeChunkResults chunks rules).2
      = ⟨((rules.length : Int), 0),
         (if countFlagged (mergeRooms (collectedRooms chunks)) > 0
          then ((countFlagged (mergeRooms (collectedRooms chunks)) : Int), 0)
          else chunkFlagSum chunks),
         (if (if countFlagged (mergeRooms (collectedRooms chunks)) > 0
              then ((countFlagged (mergeRooms (collectedRooms chunks)) : Int), (0 : Nat))
              else chunkFlagSum chunks).1 = 0
          then "PASSED" else "FLAGGED")⟩ ∧
    (mergeChunkResults chunks rules).1.rooms = mergeRooms (collectedRooms chunks) := by
  have hrooms : ((chunks.enum).foldl chunkStep ⟨initMaster, (0, 0), (0, 0)⟩).master.rooms
      = collectedRooms chunks := by
    have := foldEnum_rooms chunks 0 ⟨initMaster, (0, 0), (0, 0)⟩
    simpa [List.enum, initMaster] using this
  have hflags : ((chunks.enum).foldl chunkStep ⟨initMaster, (0, 0), (0, 0)⟩).totalFlags
      = chunkFlagSum chunks := by
    have := foldEnum_totalFlags chunks 0 ⟨initMaster, (0, 0), (0, 0)⟩
    simpa [List.enum, chunkFlagSum] using this
  have hne : (!rules.isEmpty) = true := by
    cases rules with
    | nil => simp at h
    | cons a l => simp
  constructor
  · simp only [mergeChunkResults, hne, if_true, hrooms, hflags]
  · simp only [mergeChunkResults, hne, if_true, hrooms, hflags]

theorem claim5_summary_amended_witness :
    ([c5rule] ≠ ([] : List JVal)) ∧
    (mergeChunkResults [c5chunk] [c5rule]).2 = ⟨(1, 0), (3, 0), "FLAGGED"⟩ := by
  refine ⟨by simp, ?_⟩
  rw [(claim5_summary_amended [c5chunk] [c5rule] (by simp)).1]
  rfl

/-! ### Claim C7 — total failure (every chunk empty) -/

theorem chunkStep_empty (st : RecState) (i : Nat) :
    chunkStep st (i, .obj []) = st := by
  simp [chunkStep, pyTruthy]

theorem foldEnum_empty :
    ∀ (chunks : List JVal) (n : Nat) (st : RecState),
      (∀ c ∈ chunks, c = JVal.obj []) →
      (List.enumFrom n chunks).foldl chunkStep st = st := by
  intro chunks
  induction chunks with
  | nil => intro n st _; rfl
  | cons c cs ih =>
    intro n st hall
    have hc : c = JVal.obj [] := hall c (by simp)
    have h1 : List.enumFrom n (c :: cs) = (n, c) :: List.enumFrom (n + 1) cs := rfl
    rw [h1, List.foldl_cons, hc, chunkStep_empty]
    exact ih (n + 1) st (fun x hx => hall x (by simp [hx]))

/-- One rule for the C7 counterexample. -/
def c7rule : JVal := .obj [("rule_id", .str "QUANTITYME_001")]

/-- C7 counterexample: when every chunk failed (all partials are `{}`) but a
non-empty rule list was supplied, lines 245-257 still set
`total_rules_checked = len(rules)` — the summary does NOT report zero rules
checked as the claim states. -/
theorem claim7_total_failure_counterexample :
    (mergeChunkResults [JVal.obj [], JVal.obj []] [c7rule]).2.totalRulesChecked = (1, 0) ∧
    ((1 : Int), (0 : Nat)) ≠ ((0 : Int), (0 : Nat)) := by
  exact ⟨rfl, by decide⟩

/-- C7 amended: if every chunk fails (all partial documents are the empty
dict), reconciliation returns — never raises — a canonical document with
empty rooms, empty metadata/totals/recap lists, zero critical flags and
status "PASSED"; `totalRulesChecked` is 0 when no rules were supplied and
`len(rules)` when a non-empty rule list was supplied (lines 245/257). -/
theorem claim7_total_failure_amended (chunks rules : List JVal)
    (h : ∀ c ∈ chunks, c = JVal.obj []) :
    (mergeChunkResults chunks rules).1.rooms = [] ∧
    (mergeChunkResults chunks rules).1.documentMetadata = .obj [] ∧
    (mergeChunkResults chunks rules).1.grandTotalAreas = [] ∧
    (mergeChunkResults chunks rules).1.summaryForDwelling = [] ∧
    (mergeChunkResults chunks rules).1.recapTaxes = [] ∧
    (mergeChunkResults chunks rules).1.recapByRoom = [] ∧
    (mergeChunkResults chunks rules).1.recapByCategory = [] ∧
    (mergeChunkResults chunks rules).1.reviewFindings = [] ∧
    (mergeChunkResults chunks rules).2.criticalFlags = (0, 0) ∧
    (mergeChunkResults chunks rules).2.status = "PASSED" ∧
    (mergeChunkResults chunks rules).2.totalRulesChecked
      = (if rules.isEmpty then ((0 : Int), (0 : Nat)) else ((rules.length : Int), 0)) := by
  have hfold : (chunks.enum).foldl chunkStep ⟨initMaster, (0, 0), (0, 0)⟩
      = ⟨initMaster, (0, 0), (0, 0)⟩ := by
    have := foldEnum_empty chunks 0 ⟨initMaster, (0, 0), (0, 0)⟩ h
    simpa [List.enum] using this
  cases hr : rules with
  | nil =>
    simp only [mergeChunkResults, hfold]
    refine ⟨rfl, rfl, rfl, rfl, rfl, rfl, rfl, rfl, ?_, ?_, ?_⟩ <;> rfl
  | cons a l =>
    simp only [mergeChunkResults, hfold]
    refine ⟨rfl, rfl, rfl, rfl, rfl, rfl, rfl, rfl, ?_, ?_, ?_⟩ <;> rfl

theorem claim7_total_failure_amended_witness :
    (∀ c ∈ [JVal.obj [], JVal.obj []], c = JVal.obj []) ∧
    (mergeChunkResults [JVal.obj [], JVal.obj []] [c7rule]).1.rooms = [] := by
  refine ⟨?_, ?_⟩
  · intro c hc
    fin_cases hc <;> rfl
  · exact (claim7_total_failure_amended [JVal.obj [], JVal.obj []] [c7rule]
      (by intro c hc; fin_cases hc <;> rfl)).1

/-! ### Claim C6 — parser robustness (lines 782-948) -/

mutual

/-- Is `a` a (recursive) sub-document of `b`?  On dicts: every key of `a`
is present in `b` with a sub-document value; all other shapes must be
Python-equal.  This is the natural reading of the claim's "minimal-valid
subset". -/
def jsonSubsetB : JVal → JVal → Bool
  | .obj akvs, .obj bkvs => jsonSubsetKvs akvs bkvs
  | a, b => pyEqB a b

/-- Keywise sub-document test. -/
def jsonSubsetKvs : List (String × JVal) → List (String × JVal) → Bool
  | [], _ => true
  | (k, v) :: rest, bkvs =>
    (match kvLookup k bkvs with
     | some w => jsonSubsetB v w
     | none => false) && jsonSubsetKvs rest bkvs

end

/-- The truncated, unbalanced input of the claim's second example. -/
def c6input : String := "\x7b\"a\": \x7b\"b\": 1"

/-- The value the claim expects for the truncated input. -/
def c6expected : JVal := .obj [("a", .obj [("b", .num 1 0)])]

/-- C6 counterexample: `parse('{"a": {"b": 1')` returns the strategy-5
fallback envelope carrying the raw text — the input contains no `}`, so the
guard `end_idx > start_idx` of strategy 3 (line 809) is false, no
`JSONDecodeError` is raised there, and the structural-repair path (lines
814-838) is never attempted; strategy 4's slice is empty.  The result is
neither equal to `{"a": {"b": 1}}` nor a subset of it. -/
theorem claim6_parser_counterexample :
    parseJsonResponse c6input "" false = fallbackDoc c6input "" ∧
    pyEqB (parseJsonResponse c6input "" false) c6expected = false ∧
    jsonSubsetB (parseJsonResponse c6input "" false) c6expected = false := by
  exact ⟨rfl, rfl, rfl⟩

/-- C6 amended: the parser is total (never raises) and a string that parses
directly as JSON is returned verbatim; `parse('{"a":1,}')` yields `{"a":1}`
(trailing comma repaired); but `parse('{"a": {"b": 1')` — truncated with no
closing brace at all — returns the strategy-5 fallback envelope carrying
the raw response text, because the structural-repair strategy is reached
only through the `except` of strategy 3, which requires a `}` after the
first `{`. -/
theorem claim6_parser_amended :
    (∀ (s fn : String) (t : Bool) (j : JVal),
        jsonLoads s = some j → parseJsonResponse s fn t = j) ∧
    (∀ (fn : String) (t : Bool),
        parseJsonResponse "\x7b\"a\":1,\x7d" fn t = .obj [("a", .num 1 0)]) ∧
    (∀ (fn : String) (t : Bool),
        parseJsonResponse c6input fn t = fallbackDoc c6input fn) := by
  refine ⟨?_, ?_, ?_⟩
  · intro s fn t j h
    simp [parseJsonResponse, h]
  · intro fn t
    rfl
  · intro fn t
    rfl

theorem claim6_parser_amended_witness :
    jsonLoads "\x7b\x7d" = some (.obj []) ∧
      parseJsonResponse "\x7b\x7d" "file" true = .obj [] := by
  refine ⟨by rfl, ?_⟩
  exact claim6_parser_amended.1 "\x7b\x7d" "file" true (.obj []) (by rfl)

/-! ### Claim C8 — dedup idempotence (lines 298-532)
The claim `merge(rooms ++ rooms) == merge(rooms)` fails in general: an
empty/"unknown" room name receives the synthetic key
`unnamed_room_<map size>` (lines 308-309), so the second copy lands under a
fresh key.  The amended claim proves idempotence under explicit safety
hypotheses on the rooms. -/

/-- Single-room list whose name is empty — the C8 counterexample input. -/
def c8rooms : List JVal := [.obj [("name", .str "")]]

/-- C8 counterexample: merging the list of one unnamed room gives one room,
merging its self-concatenation gives two (keys `unnamed_room_0` and
`unnamed_room_1`), so `merge(rooms ++ rooms)` is not Python-equal to
`merge(rooms)` under any key-order normalisation. -/
theorem claim8_idempotence_counterexample :
    (mergeRooms (c8rooms ++ c8rooms)).length = 2 ∧
    (mergeRooms c8rooms).length = 1 ∧
    pyEqB (.arr (mergeRooms (c8rooms ++ c8rooms))) (.arr (mergeRooms c8rooms)) = false := by
  exact ⟨rfl, rfl, rfl⟩

/-- Is the value a dict? -/
def isObjB : JVal → Bool
  | .obj _ => true
  | _ => false

/-- The key is absent or bound to a list (Python would raise on iterating
anything else). -/
def keyIsListOrAbsent (r : JVal) (k : String) : Bool :=
  match objFind r k with
  | none => true
  | some (.arr _) => true
  | some _ => false

/-- The key is bound to a list (present). -/
def keyIsList (r : JVal) (k : String) : Bool :=
  match objFind r k with
  | some (.arr _) => true
  | _ => false

/-- All strings in the list pairwise distinct. -/
def allDistinct : List String → Bool
  | [] => true
  | x :: xs => !(xs.contains x) && allDistinct xs

/-- The feature is not an "opens into" fragment. -/
def noOpensInto (f : JVal) : Bool := !(strContainsB (featTypeOf f) "opens into")

/-- Sub-area safety for the amended idempotence claim: `line_items` present
as a list, no legacy `items` key, features a list (or absent) with no
fragment-typed entry. -/
def subAreaSafe (sa : JVal) : Bool :=
  keyIsList sa "line_items" &&
  !(objHas sa "items") &&
  keyIsListOrAbsent sa "architectural_features" &&
  (toListD (objGetD sa "architectural_features" (.arr []))).all noOpensInto

/-- Dimensions either absent/non-dict or a dict with distinct keys. -/
def dimsSafe (r : JVal) : Bool :=
  match objFind r "dimensions" with
  | some (.obj kvs) => allDistinct (kvs.map Prod.fst)
  | _ => true

/-- Room safety for the amended idempotence claim. -/
def selfMergeSafe (r : JVal) : Bool :=
  isObjB r &&
  (roomNameNorm r != "") && (roomNameNorm r != "unknown") &&
  dimsSafe r &&
  !(objHas r "items") &&
  keyIsListOrAbsent r "line_items" &&
  keyIsListOrAbsent r "sub_areas" &&
  (toListD (objGetD r "sub_areas" (.arr []))).all subAreaSafe &&
  allDistinct ((toListD (objGetD r "sub_areas" (.arr []))).map subName) &&
  keyIsListOrAbsent r "architectural_features" &&
  (toListD (objGetD r "architectural_features" (.arr []))).all noOpensInto &&
  keyIsListOrAbsent r "rule_validations" &&
  allDistinct ((toListD (objGetD r "rule_validations" (.arr []))).map ruleIdOf)

theorem contains_of_mem {α} [BEq α] [LawfulBEq α] {a : α} {l : List α} (h : a ∈ l) :
    l.contains a = true := by
  induction l with
  | nil => cases h
  | cons b t ih =>
    rcases List.mem_cons.mp h with rfl | h2
    · simp [List.contains_cons]
    · rw [List.contains_cons, ih h2, Bool.or_true]

theorem foldl_fixed {α β} (f : α → β → α) (acc : α) :
    ∀ l : List β, (∀ x ∈ l, f acc x = acc) → l.foldl f acc = acc := by
  intro l
  induction l with
  | nil => intro _; rfl
  | cons x xs ih =>
    intro h
    rw [List.foldl_cons, h x (by simp)]
    exact ih (fun y hy => h y (by simp [hy]))

theorem updateFirstB_fst_id (p : JVal → Bool) (f : JVal → JVal) :
    ∀ l : List JVal, (∀ x ∈ l, p x = true → f x = x) → (updateFirstB l p f).1 = l := by
  intro l
  induction l with
  | nil => intro _; rfl
  | cons x xs ih =>
    intro h
    by_cases hp : p x
    · simp [updateFirstB, hp, h x (by simp) hp]
    · simp only [updateFirstB, hp, Bool.false_eq_true, if_false]
      simp [ih (fun y hy hpy => h y (by simp [hy]) hpy)]

theorem allDistinct_tail {x : String} {xs : List String} (h : allDistinct (x :: xs) = true) :
    allDistinct xs = true := by
  simp [allDistinct, Bool.and_eq_true] at h
  exact h.2

theorem allDistinct_head_not_mem {x : String} {xs : List String}
    (h : allDistinct (x :: xs) = true) : x ∉ xs := by
  simp [allDistinct, Bool.and_eq_true] at h
  intro hmem
  exact absurd (contains_of_mem hmem) (by simp [h.1])

theorem distinct_inj {g : JVal → String} :
    ∀ {l : List JVal}, allDistinct (l.map g) = true →
      ∀ {x y : JVal}, x ∈ l → y ∈ l → g x = g y → x = y := by
  intro l
  induction l with
  | nil => intro _ x y hx; cases hx
  | cons a t ih =>
    intro h x y hx hy hg
    have htail : allDistinct (t.map g) = true := allDistinct_tail (by simpa using h)
    have hnm : g a ∉ t.map g := allDistinct_head_not_mem (by simpa using h)
    rcases List.mem_cons.mp hx with rfl | hx2
    · rcases List.mem_cons.mp hy with rfl | hy2
      · rfl
      · have hmem : g x ∈ List.map g t := by
          rw [hg]; exact List.mem_map_of_mem g hy2
        exact absurd hmem hnm
    · rcases List.mem_cons.mp hy with rfl | hy2
      · have hmem : g y ∈ List.map g t := by
          rw [← hg]; exact List.mem_map_of_mem g hx2
        exact absurd hmem hnm
      · exact ih htail hx2 hy2 hg

theorem kvHas_iff_lookup (k : String) :
    ∀ kvs : List (String × JVal), kvHas k kvs = true ↔ ∃ v, kvLookup k kvs = some v := by
  intro kvs
  induction kvs with
  | nil => simp [kvHas, kvLookup]
  | cons p rest ih =>
    by_cases hk : p.1 = k
    · simp [kvHas, kvLookup, hk]
    · simp [kvHas, kvLookup, hk] at ih ⊢
      exact ih

theorem kvLookup_kvSet_other {k k2 : String} (hne : k2 ≠ k) (v : JVal) :
    ∀ kvs : List (String × JVal), kvLookup k2 (kvSet k v kvs) = kvLookup k2 kvs := by
  have hne2 : ¬ k = k2 := fun h => hne h.symm
  intro kvs
  induction kvs with
  | nil => simp [kvSet, kvLookup, hne2]
  | cons p rest ih =>
    by_cases hk : p.1 = k
    · by_cases hk2 : p.1 = k2
      · rw [hk] at hk2; exact absurd hk2.symm hne
      · simp [kvSet, kvLookup, hk, hk2, hne2]
    · simp [kvSet, kvLookup, hk, ih]

theorem objSet_same {o : JVal} {k : String} {v : JVal} (h : objFind o k = some v) :
    objSet o k v = o := by
  cases o with
  | obj kvs =>
    simp only [objFind] at h
    simp only [objSet, kvSet_of_lookup_eq k v kvs h]
  | null => rfl
  | bool b => rfl
  | num m e => rfl
  | str s => rfl
  | arr l => rfl

theorem kvLookup_none_of_not_has {k : String} {kvs : List (String × JVal)}
    (h : kvHas k kvs = false) : kvLookup k kvs = none := by
  cases hl : kvLookup k kvs with
  | none => rfl
  | some v =>
    have := (kvHas_iff_lookup k kvs).mpr ⟨v, hl⟩
    rw [this] at h
    cases h

theorem isObjB_objSetIfAbsent (o : JVal) (k : String) (v : JVal) :
    isObjB (objSetIfAbsent o k v) = isObjB o := by
  unfold objSetIfAbsent
  split
  · rfl
  · cases o <;> rfl

theorem objFind_setIfAbsent_other {o : JVal} {k k2 : String} (h : k2 ≠ k) (v : JVal) :
    objFind (objSetIfAbsent o k v) k2 = objFind o k2 := by
  unfold objSetIfAbsent
  split
  · rfl
  · cases o with
    | obj kvs => simpa [objSet, objFind] using kvLookup_kvSet_other h v kvs
    | null => rfl
    | bool b => rfl
    | num m e => rfl
    | str s => rfl
    | arr l => rfl

theorem objFind_setIfAbsent_self {o : JVal} (hobj : isObjB o = true) (k : String) (v : JVal) :
    objFind (objSetIfAbsent o k v) k = some ((objFind o k).getD v) := by
  cases o with
  | obj kvs =>
    unfold objSetIfAbsent
    by_cases h : objHas (.obj kvs) k
    · rw [if_pos h]
      simp only [objHas] at h
      obtain ⟨w, hw⟩ := (kvHas_iff_lookup k kvs).mp h
      simp [objFind, hw]
    · rw [if_neg h]
      simp only [objHas, Bool.not_eq_true] at h
      have hnone : kvLookup k kvs = none := kvLookup_none_of_not_has h
      simp [objSet, objFind, kvLookup_kvSet_self, hnone]
  | null => cases hobj
  | bool b => cases hobj
  | num m e => cases hobj
  | str s => cases hobj
  | arr l => cases hobj

theorem seed_find_other {r : JVal} {k : String}
    (h1 : k ≠ "line_items") (h2 : k ≠ "sub_areas") (h3 : k ≠ "rule_validations") :
    objFind (seedRoom r) k = objFind r k := by
  unfold seedRoom
  rw [objFind_setIfAbsent_other h3, objFind_setIfAbsent_other h2, objFind_setIfAbsent_other h1]

theorem seed_find_li {r : JVal} (hobj : isObjB r = true) :
    objFind (seedRoom r) "line_items" = some ((objFind r "line_items").getD (.arr [])) := by
  unfold seedRoom
  rw [objFind_setIfAbsent_other (by decide), objFind_setIfAbsent_other (by decide)]
  exact objFind_setIfAbsent_self hobj _ _

theorem seed_find_sa {r : JVal} (hobj : isObjB r = true) :
    objFind (seedRoom r) "sub_areas" = some ((objFind r "sub_areas").getD (.arr [])) := by
  unfold seedRoom
  rw [objFind_setIfAbsent_other (by decide)]
  rw [objFind_setIfAbsent_self (by rw [isObjB_objSetIfAbsent]; exact hobj) _ _]
  rw [objFind_setIfAbsent_other (by decide)]

theorem seed_find_rv {r : JVal} (hobj : isObjB r = true) :
    objFind (seedRoom r) "rule_validations"
      = some ((objFind r "rule_validations").getD (.arr [])) := by
  unfold seedRoom
  rw [objFind_setIfAbsent_self
    (by rw [isObjB_objSetIfAbsent, isObjB_objSetIfAbsent]; exact hobj) _ _]
  rw [objFind_setIfAbsent_other (by decide), objFind_setIfAbsent_other (by decide)]

theorem lookup_of_mem_distinct :
    ∀ {kvs : List (String × JVal)} {k : String} {v : JVal},
      allDistinct (kvs.map Prod.fst) = true → (k, v) ∈ kvs → kvLookup k kvs = some v := by
  intro kvs
  induction kvs with
  | nil => intro k v _ h; cases h
  | cons p rest ih =>
    intro k v hdist hmem
    rcases List.mem_cons.mp hmem with rfl | h2
    · simp [kvLookup]
    · by_cases hk : p.1 = k
      · have : k ∈ rest.map Prod.fst := by
          exact List.mem_map_of_mem Prod.fst h2
        have hnot := allDistinct_head_not_mem (by simpa using hdist)
        rw [hk] at hnot
        exact absurd this hnot
      · simp only [kvLookup, hk, if_false]
        exact ih (allDistinct_tail (by simpa using hdist)) h2

theorem fillNullKvs_self {kvs : List (String × JVal)}
    (hdist : allDistinct (kvs.map Prod.fst) = true) : fillNullKvs kvs kvs = kvs := by
  unfold fillNullKvs
  apply foldl_fixed
  intro p hp
  by_cases hnull : isNullJ p.2
  · simp [hnull]
  · have hlk : kvLookup p.1 kvs = some p.2 := lookup_of_mem_distinct hdist hp
    simp [hnull, hlk]

theorem mergeDimsStep_self {er r : JVal}
    (hfind : objFind er "dimensions" = objFind r "dimensions")
    (hdims : dimsSafe r = true) : mergeDimsStep er r = er := by
  unfold mergeDimsStep
  simp only [objGetD, hfind]
  rw [Bool.and_not_self, if_neg (by simp)]
  cases hd : objFind r "dimensions" with
  | none => rfl
  | some v =>
    cases v with
    | obj kvs =>
      simp only [Option.getD]
      rw [fillNullKvs_self (by simpa [dimsSafe, hd] using hdims)]
      exact objSet_same (by rw [hfind, hd])
    | null => rfl
    | bool b => rfl
    | num m e => rfl
    | str s => rfl
    | arr l => rfl

theorem objFind_none_of_not_has {o : JVal} {k : String} (h : objHas o k = false) :
    objFind o k = none := by
  cases o with
  | obj kvs => exact kvLookup_none_of_not_has (by simpa [objHas] using h)
  | null => rfl
  | bool b => rfl
  | num m e => rfl
  | str s => rfl
  | arr l => rfl

theorem objHas_of_find {o : JVal} {k : String} {v : JVal} (h : objFind o k = some v) :
    objHas o k = true := by
  cases o with
  | obj kvs =>
    simp only [objFind] at h
    simpa [objHas] using (kvHas_iff_lookup k kvs).mpr ⟨v, h⟩
  | null => cases h
  | bool b => cases h
  | num m e => cases h
  | str s => cases h
  | arr l => cases h

theorem objSetIfAbsent_of_has {o : JVal} {k : String} (h : objHas o k = true) (v : JVal) :
    objSetIfAbsent o k v = o := by
  unfold objSetIfAbsent
  rw [if_pos h]

theorem filter_not_pyMem_self (l : List JVal) :
    l.filter (fun i => !(pyMemB i l)) = [] := by
  apply List.filter_eq_nil_iff.mpr
  intro a ha
  simp [pyMemB_of_mem ha]

theorem mergeLineItems_no_new :
    ∀ (n e : List JVal), (∀ i ∈ n, itemSig i ∈ e.map itemSig) → mergeLineItems e n = e := by
  intro n
  induction n with
  | nil => intro e _; rfl
  | cons i t ih =>
    intro e h
    rw [mergeLineItems_cons, if_pos (contains_of_mem (h i (by simp)))]
    exact ih e (fun j hj => h j (by simp [hj]))

theorem mergeLineItems_self (l : List JVal) : mergeLineItems l l = l :=
  mergeLineItems_no_new l l (fun i hi => List.mem_map_of_mem itemSig hi)

theorem mergeItemsStep_self {er r : JVal}
    (hli : objFind er "line_items" = some ((objFind r "line_items").getD (.arr [])))
    (hsafe : keyIsListOrAbsent r "line_items" = true)
    (hnoitems : objHas r "items" = false) : mergeItemsStep er r = er := by
  have hitems : objFind r "items" = none := objFind_none_of_not_has hnoitems
  unfold mergeItemsStep
  cases hfr : objFind r "line_items" with
  | none =>
    simp only [objGetD, hfr, hitems, Option.getD, pyTruthy]
    rw [hli, hfr]
    simp only [Option.getD, toListD, mergeLineItems_self]
    exact objSet_same (by rw [hli, hfr]; rfl)
  | some v =>
    cases v with
    | arr l =>
      cases l with
      | nil =>
        simp only [objGetD, hfr, hitems, Option.getD, pyTruthy, List.isEmpty_nil,
          Bool.not_true, Bool.false_eq_true, if_false]
        rw [hli, hfr]
        simp only [Option.getD, toListD, mergeLineItems_self]
        exact objSet_same (by rw [hli, hfr]; rfl)
      | cons x xs =>
        simp only [objGetD, hfr, Option.getD, pyTruthy, List.isEmpty_cons, Bool.not_false,
          if_true]
        rw [hli, hfr]
        simp only [Option.getD, toListD, mergeLineItems_self]
        exact objSet_same (by rw [hli, hfr]; rfl)
    | null => simp [keyIsListOrAbsent, hfr] at hsafe
    | bool b => simp [keyIsListOrAbsent, hfr] at hsafe
    | num m e => simp [keyIsListOrAbsent, hfr] at hsafe
    | str s => simp [keyIsListOrAbsent, hfr] at hsafe
    | obj kvs => simp [keyIsListOrAbsent, hfr] at hsafe

theorem mergeSubItems_self {sa : JVal} (hsafe : subAreaSafe sa = true) :
    mergeSubItems sa sa = sa := by
  have hsafe2 := hsafe
  simp only [subAreaSafe, Bool.and_eq_true] at hsafe2
  obtain ⟨⟨⟨hli, hnoitems⟩, _⟩, _⟩ := hsafe2
  have hitems : objFind sa "items" = none :=
    objFind_none_of_not_has (by simpa using hnoitems)
  unfold mergeSubItems
  cases hfr : objFind sa "line_items" with
  | none => simp [keyIsList, hfr] at hli
  | some v =>
    cases v with
    | arr l =>
      rw [objSetIfAbsent_of_has (objHas_of_find hfr)]
      cases l with
      | nil =>
        simp only [objGetD, hfr, hitems, Option.getD, toListD, pyTruthy, List.isEmpty_nil,
          Bool.not_true, Bool.false_eq_true, if_false, List.filter_nil, List.append_nil]
        exact objSet_same (by rw [hfr])
      | cons x xs =>
        simp only [objGetD, hfr, Option.getD, toListD, pyTruthy, List.isEmpty_cons,
          Bool.not_false, if_true]
        rw [filter_not_pyMem_self, List.append_nil]
        exact objSet_same (by rw [hfr])
    | null => simp [keyIsList, hfr] at hli
    | bool b => simp [keyIsList, hfr] at hli
    | num m e => simp [keyIsList, hfr] at hli
    | str s => simp [keyIsList, hfr] at hli
    | obj kvs => simp [keyIsList, hfr] at hli

theorem mergeSubAreas_self {l : List JVal}
    (hsafe : ∀ sa ∈ l, subAreaSafe sa = true)
    (hdist : allDistinct (l.map subName) = true) : mergeSubAreas l l = l := by
  unfold mergeSubAreas
  rw [foldl_fixed _ _ l]
  · intro sa hsa
    have hmem : subName sa ∈ l.map subName := List.mem_map_of_mem subName hsa
    have hcont : (l.map subName).contains (subName sa) = true := contains_of_mem hmem
    simp only [hcont, Bool.not_true, Bool.and_false, Bool.false_eq_true, if_false, if_true]
    rw [updateFirstB_fst_id]
    intro x hx hpx
    have hx_eq : x = sa := by
      apply distinct_inj hdist hx hsa
      exact eq_of_beq hpx
    rw [hx_eq]
    exact mergeSubItems_self (hsafe sa hsa)

theorem mergeFeatureList_no_opens (l : List JVal) (hno : ∀ f ∈ l, noOpensInto f = true) :
    mergeFeatureList l l = l := by
  unfold mergeFeatureList
  apply foldl_fixed
  intro f hf
  have hnof : strContainsB (featTypeOf f) "opens into" = false := by
    have := hno f hf
    simpa [noOpensInto] using this
  have hcont : (l.map featSig).contains (featTypeOf f, featDimsOf f) = true := by
    have : featSig f ∈ l.map featSig := List.mem_map_of_mem featSig hf
    simpa [featSig] using contains_of_mem this
  simp only [featStep, hnof, Bool.false_eq_true, if_false, hcont, if_true]

theorem mergeRoomFeatsStep_self {er r : JVal}
    (hfind : objFind er "architectural_features" = objFind r "architectural_features")
    (hsafe : keyIsListOrAbsent r "architectural_features" = true)
    (hno : (toListD (objGetD r "architectural_features" (.arr []))).all noOpensInto = true) :
    mergeRoomFeatsStep er r = er := by
  unfold mergeRoomFeatsStep
  cases hfr : objFind r "architectural_features" with
  | none => simp [objGetD, hfr, pyTruthy]
  | some v =>
    cases v with
    | arr l =>
      cases l with
      | nil => simp [objGetD, hfr, pyTruthy]
      | cons x xs =>
        simp only [objGetD, hfr, Option.getD, toListD, pyTruthy, List.isEmpty_cons,
          Bool.not_false, if_true, hfind]
        rw [mergeFeatureList_no_opens (x :: xs)
          (by intro f hfmem
              rw [List.all_eq_true] at hno
              have := hno f
              simp only [objGetD, hfr, Option.getD, toListD] at this
              exact this hfmem)]
        exact objSet_same (by rw [hfind, hfr])
    | null => simp [keyIsListOrAbsent, hfr] at hsafe
    | bool b => simp [keyIsListOrAbsent, hfr] at hsafe
    | num m e => simp [keyIsListOrAbsent, hfr] at hsafe
    | str s => simp [keyIsListOrAbsent, hfr] at hsafe
    | obj kvs => simp [keyIsListOrAbsent, hfr] at hsafe

theorem subFeatStep_self {l : List JVal}
    (hsafe : ∀ sa ∈ l, subAreaSafe sa = true)
    (hdist : allDistinct (l.map subName) = true) :
    ∀ sa ∈ l, subFeatStep l sa = l := by
  intro sa hsa
  unfold subFeatStep
  by_cases hn : subName sa = ""
  · simp [hn]
  · rw [if_pos (by simpa using hn)]
    rw [updateFirstB_fst_id]
    intro x hx hpx
    have hx_eq : x = sa := distinct_inj hdist hx hsa (eq_of_beq hpx)
    subst hx_eq
    have hxsafe := hsafe x hsa
    simp only [subAreaSafe, Bool.and_eq_true] at hxsafe
    obtain ⟨⟨⟨_, _⟩, harch⟩, hno⟩ := hxsafe
    cases hfr : objFind x "architectural_features" with
    | none => simp [objGetD, hfr, pyTruthy]
    | some v =>
      cases v with
      | arr la =>
        cases la with
        | nil => simp [objGetD, hfr, pyTruthy]
        | cons f fs =>
          simp only [objGetD, hfr, Option.getD, toListD, pyTruthy, List.isEmpty_cons,
            Bool.not_false, if_true]
          rw [mergeFeatureList_no_opens (f :: fs)
            (by intro g hg
                rw [List.all_eq_true] at hno
                have := hno g
                simp only [objGetD, hfr, Option.getD, toListD] at this
                exact this hg)]
          exact objSet_same (by rw [hfr])
      | null => simp [keyIsListOrAbsent, hfr] at harch
      | bool b => simp [keyIsListOrAbsent, hfr] at harch
      | num m e => simp [keyIsListOrAbsent, hfr] at harch
      | str s => simp [keyIsListOrAbsent, hfr] at harch
      | obj kvs => simp [keyIsListOrAbsent, hfr] at harch

theorem jvalBEq_str_right {y : JVal} {a : String} (h : jvalBEq y (.str a) = true) :
    y = .str a := by
  cases y with
  | str s =>
    simp only [jvalBEq, beq_iff_eq] at h
    rw [h]
  | null => cases h
  | bool b => cases h
  | num m e => cases h
  | arr l => cases h
  | obj kvs => cases h

theorem pyEqB_str_norm {x : JVal} {a : String} (h : pyEqB x (.str a) = true) :
    normJ x = .str a := by
  unfold pyEqB at h
  exact jvalBEq_str_right h

theorem mergeRuleValidations_self {l : List JVal}
    (hdist : allDistinct (l.map ruleIdOf) = true) : mergeRuleValidations l l = l := by
  unfold mergeRuleValidations
  rw [foldl_fixed _ _ l]
  intro val hval
  have hmem : ruleIdOf val ∈ l.map ruleIdOf := List.mem_map_of_mem ruleIdOf hval
  have hcont : (l.map ruleIdOf).contains (ruleIdOf val) = true := contains_of_mem hmem
  simp only [hcont, Bool.not_true, Bool.and_false, Bool.false_eq_true, if_false, if_true]
  rw [updateFirstB_fst_id]
  intro x hx hpx
  have hx_eq : x = val := distinct_inj hdist hx hval (eq_of_beq hpx)
  subst hx_eq
  cases hC : (pyEqB (objGetD x "status" .null) (.str "FLAGGED") &&
      pyEqB (objGetD x "status" .null) (.str "PASSED")) with
  | false => simp [hC]
  | true =>
    rw [Bool.and_eq_true] at hC
    have h1 := pyEqB_str_norm hC.1
    have h2 := pyEqB_str_norm hC.2
    rw [h1] at h2
    injection h2 with h3
    exact absurd h3 (by decide)

theorem mergeValsStep_self {er r : JVal}
    (hrv : objFind er "rule_validations" = some ((objFind r "rule_validations").getD (.arr [])))
    (hsafe : keyIsListOrAbsent r "rule_validations" = true)
    (hdist : allDistinct ((toListD (objGetD r "rule_validations" (.arr []))).map ruleIdOf) = true) :
    mergeValsStep er r = er := by
  unfold mergeValsStep
  rw [objSetIfAbsent_of_has (objHas_of_find hrv)]
  cases hfr : objFind r "rule_validations" with
  | none =>
    simp only [objGetD, hrv, hfr, Option.getD, toListD]
    rw [mergeRuleValidations_self (by simpa [objGetD, hfr, toListD] using hdist)]
    exact objSet_same (by rw [hrv, hfr]; rfl)
  | some v =>
    cases v with
    | arr lv =>
      simp only [objGetD, hrv, hfr, Option.getD, toListD]
      rw [mergeRuleValidations_self (by simpa [objGetD, hfr, toListD] using hdist)]
      exact objSet_same (by rw [hrv, hfr]; rfl)
    | null => simp [keyIsListOrAbsent, hfr] at hsafe
    | bool b => simp [keyIsListOrAbsent, hfr] at hsafe
    | num m e => simp [keyIsListOrAbsent, hfr] at hsafe
    | str s => simp [keyIsListOrAbsent, hfr] at hsafe
    | obj kvs => simp [keyIsListOrAbsent, hfr] at hsafe

theorem listOrAbsent_getD {o : JVal} {k : String} (h : keyIsListOrAbsent o k = true) :
    (objFind o k).getD (.arr []) = .arr (toListD ((objFind o k).getD (.arr []))) := by
  cases hf : objFind o k with
  | none => rfl
  | some v =>
    cases v with
    | arr l => rfl
    | null => simp [keyIsListOrAbsent, hf] at h
    | bool b => simp [keyIsListOrAbsent, hf] at h
    | num m e => simp [keyIsListOrAbsent, hf] at h
    | str s => simp [keyIsListOrAbsent, hf] at h
    | obj kvs => simp [keyIsListOrAbsent, hf] at h

theorem mergeDupIdentity {r : JVal} (hsafe : selfMergeSafe r = true) :
    mergeDup (seedRoom r) r = seedRoom r := by
  have h := hsafe
  simp only [selfMergeSafe, Bool.and_eq_true] at h
  obtain ⟨⟨⟨⟨⟨⟨⟨⟨⟨⟨⟨⟨hobj, hname1⟩, hname2⟩, hdims⟩, hnoitems⟩, hli⟩, hsa⟩,
    hsub_safe⟩, hsub_dist⟩, harch⟩, hno⟩, hrv⟩, hrv_dist⟩ := h
  have hsafind := seed_find_sa hobj
  have hsub_eq : toListD (objGetD (seedRoom r) "sub_areas" (.arr []))
      = toListD (objGetD r "sub_areas" (.arr [])) := by
    simp [objGetD, hsafind]
  have hsub_safe2 : ∀ sa ∈ toListD (objGetD r "sub_areas" (.arr [])), subAreaSafe sa = true :=
    fun sa hmem => (List.all_eq_true.mp hsub_safe) sa hmem
  have e1 : mergeDimsStep (seedRoom r) r = seedRoom r :=
    mergeDimsStep_self (seed_find_other (by decide) (by decide) (by decide)) hdims
  have e2 : mergeItemsStep (seedRoom r) r = seedRoom r :=
    mergeItemsStep_self (seed_find_li hobj) hli (by simpa using hnoitems)
  have e3 : objSet (seedRoom r) "sub_areas"
      (.arr (toListD (objGetD r "sub_areas" (.arr [])))) = seedRoom r := by
    apply objSet_same
    rw [hsafind]
    exact congrArg some (listOrAbsent_getD hsa)
  have e4 : mergeRoomFeatsStep (seedRoom r) r = seedRoom r :=
    mergeRoomFeatsStep_self
      (seed_find_other (by decide) (by decide) (by decide)) harch hno
  have e5 : (toListD (objGetD r "sub_areas" (.arr []))).foldl subFeatStep
      (toListD (objGetD r "sub_areas" (.arr [])))
      = toListD (objGetD r "sub_areas" (.arr [])) :=
    foldl_fixed _ _ _ (subFeatStep_self hsub_safe2 hsub_dist)
  have e6 : mergeValsStep (seedRoom r) r = seedRoom r :=
    mergeValsStep_self (seed_find_rv hobj) hrv hrv_dist
  simp only [mergeDup]
  rw [e1, e2, hsub_eq, mergeSubAreas_self hsub_safe2 hsub_dist, e3, e4, hsub_eq, e5, e3, e6]

theorem safe_name_cond {r : JVal} (hsafe : selfMergeSafe r = true) :
    ¬ ((roomNameNorm r = "" || roomNameNorm r = "unknown") = true) := by
  have h := hsafe
  simp only [selfMergeSafe, Bool.and_eq_true] at h
  obtain ⟨⟨⟨⟨⟨⟨⟨⟨⟨⟨⟨⟨_, hname1⟩, hname2⟩, _⟩, _⟩, _⟩, _⟩, _⟩, _⟩, _⟩, _⟩, _⟩, _⟩ := h
  simp only [bne_iff_ne, ne_eq] at hname1 hname2
  simp [hname1, hname2]

theorem seedFold :
    ∀ (rooms : List JVal) (acc : List (String × JVal)),
      (∀ r ∈ rooms, ¬ ((roomNameNorm r = "" || roomNameNorm r = "unknown") = true)) →
      (∀ r ∈ rooms, kvLookup (roomKeyOf r) acc = none) →
      (rooms.map roomKeyOf).Nodup →
      rooms.foldl roomsStep acc = acc ++ rooms.map (fun r => (roomKeyOf r, seedRoom r)) := by
  intro rooms
  induction rooms with
  | nil => intro acc _ _ _; simp
  | cons r rest ih =>
    intro acc hnames hlook hnodup
    have hstep : roomsStep acc r = acc ++ [(roomKeyOf r, seedRoom r)] := by
      simp only [roomsStep]
      rw [if_neg (hnames r (by simp))]
      rw [show mkRoomKey (roomNameNorm r) (roomGroupNorm r) = roomKeyOf r from rfl]
      rw [hlook r (by simp)]
    rw [List.foldl_cons, hstep]
    have hnc := hnodup
    rw [List.map_cons] at hnc
    have hpair := List.nodup_cons.mp hnc
    have hkey_not : roomKeyOf r ∉ rest.map roomKeyOf := hpair.1
    rw [ih (acc ++ [(roomKeyOf r, seedRoom r)])
      (fun x hx => hnames x (by simp [hx]))
      (fun x hx => by
        rw [kvLookup_append_right _ _ _ (hlook x (by simp [hx]))]
        have hne : roomKeyOf r ≠ roomKeyOf x := by
          intro he
          exact hkey_not (he ▸ List.mem_map_of_mem roomKeyOf hx)
        simp [kvLookup, hne])
      hpair.2]
    simp

theorem lookup_seeded :
    ∀ (rooms : List JVal) (r : JVal), r ∈ rooms →
      (rooms.map roomKeyOf).Nodup →
      kvLookup (roomKeyOf r) (rooms.map (fun x => (roomKeyOf x, seedRoom x)))
        = some (seedRoom r) := by
  intro rooms
  induction rooms with
  | nil => intro r hr; cases hr
  | cons x rest ih =>
    intro r hr hnodup
    rcases List.mem_cons.mp hr with rfl | h2
    · simp [kvLookup]
    · have hnc := hnodup
      rw [List.map_cons] at hnc
      have hpair := List.nodup_cons.mp hnc
      have hne : roomKeyOf x ≠ roomKeyOf r := by
        intro he
        exact hpair.1 (he ▸ List.mem_map_of_mem roomKeyOf h2)
      simp only [List.map_cons, kvLookup, hne, if_false]
      exact ih r h2 hpair.2

theorem secondFold :
    ∀ (rooms2 : List JVal) (m : List (String × JVal)),
      (∀ r ∈ rooms2, selfMergeSafe r = true) →
      (∀ r ∈ rooms2, kvLookup (roomKeyOf r) m = some (seedRoom r)) →
      rooms2.foldl roomsStep m = m := by
  intro rooms2
  induction rooms2 with
  | nil => intro m _ _; rfl
  | cons r rest ih =>
    intro m hsafe hlook
    have hstep : roomsStep m r = m := by
      simp only [roomsStep]
      rw [if_neg (safe_name_cond (hsafe r (by simp)))]
      rw [show mkRoomKey (roomNameNorm r) (roomGroupNorm r) = roomKeyOf r from rfl]
      rw [hlook r (by simp)]
      show kvSet (roomKeyOf r) (mergeDup (seedRoom r) r) m = m
      rw [mergeDupIdentity (hsafe r (by simp))]
      exact kvSet_of_lookup_eq _ _ m (hlook r (by simp))
    rw [List.foldl_cons, hstep]
    exact ih m (fun x hx => hsafe x (by simp [hx])) (fun x hx => hlook x (by simp [hx]))

/-- C8 amended: `merge(rooms ++ rooms) == merge(rooms)` fails in general
(synthetic `unnamed_room_<n>` keys, legacy `items` keys, intra-room
duplicate rule ids, "opens into" features and equal-named sub-areas all
break it), but idempotence holds — as literal equality, hence also after
any key-order normalisation — whenever every room is self-merge safe
(a dict whose normalised name is neither empty nor "unknown", dimensions
with distinct keys, list-valued `line_items`/`sub_areas`/features/
validations, no legacy `items` key, sub-areas with present list
`line_items` and pairwise-distinct names, no "opens into" feature types,
and pairwise-distinct validation rule ids) and the room identity keys are
pairwise distinct. -/
theorem claim8_idempotence_amended (rooms : List JVal)
    (h1 : ∀ r ∈ rooms, selfMergeSafe r = true)
    (h2 : (rooms.map roomKeyOf).Nodup) :
    mergeRooms (rooms ++ rooms) = mergeRooms rooms := by
  have hnames : ∀ r ∈ rooms, ¬ ((roomNameNorm r = "" || roomNameNorm r = "unknown") = true) :=
    fun r hr => safe_name_cond (h1 r hr)
  have hseed : rooms.foldl roomsStep [] = rooms.map (fun r => (roomKeyOf r, seedRoom r)) := by
    have := seedFold rooms [] hnames (fun r _ => rfl) h2
    simpa using this
  unfold mergeRooms
  rw [List.foldl_append, hseed]
  rw [secondFold rooms _ h1 (fun r hr => lookup_seeded rooms r hr h2)]

/-- Safe two-room list exercising every merged substructure (C8 witness). -/
def c8safeRooms : List JVal :=
  [.obj [("name", .str "Kitchen"),
         ("dimensions", .obj [("area", .num 120 0), ("height", .null)]),
         ("line_items", .arr [.obj [("description", .str "Paint"), ("quantity", .str "2")]]),
         ("sub_areas", .arr [.obj [("name", .str "Closet"), ("line_items", .arr [])]]),
         ("architectural_features", .arr
           [.obj [("feature_type", .str "Door"), ("dimensions_raw", .str "3\x27 X 8\x27"),
                  ("action_description", .str "Opens into Hall")]]),
         ("rule_validations", .arr [.obj [("rule", .str "R1"), ("status", .str "PASSED")]])],
   .obj [("name", .str "Bath"), ("grouping", .str "Main Level")]]

theorem claim8_idempotence_amended_witness :
    (∀ r ∈ c8safeRooms, selfMergeSafe r = true) ∧
    (c8safeRooms.map roomKeyOf).Nodup ∧
    mergeRooms (c8safeRooms ++ c8safeRooms) = mergeRooms c8safeRooms := by
  refine ⟨?_, by decide, ?_⟩
  · intro r hr
    fin_cases hr <;> rfl
  · exact claim8_idempotence_amended c8safeRooms
      (by intro r hr; fin_cases hr <;> rfl) (by decide)
